import Mathlib

/-
Verification of the recommendation-scoring engine and its caching layer
(backend/recommender.py) against its specification.

The tabular pandas computations are embedded as functions over lists of
records with exact rational arithmetic standing in for Python floats;
cosine similarity, which involves a square root, produces real numbers.
Every database load (`load_courses_data`, `load_course_tags`,
`load_user_history`, `load_user_ratings`, `load_all_ratings_for_collaborative`)
is modelled by passing the loaded table as an explicit parameter: the
cached wrappers return exactly the value their miss branch computes, and
the cache itself is verified separately as `DataCache`.
-/

namespace RecSys

/-- The TTL cache of class `DataCache`.  The Python class keeps two
dictionaries `cache` and `timestamps` that are always inserted into and
deleted from in lockstep; the pair of dictionaries is modelled as a single
map from keys to (value, insertion timestamp). -/
structure DataCache (V : Type) where
  store : String → Option (V × ℚ)

/-- The freshly constructed cache: both dictionaries empty. -/
def DataCache.empty {V : Type} : DataCache V := ⟨fun _ => none⟩

/-- `DataCache.get`: return the entry if present and fresh
(`time.time() - self.timestamps[key] < ttl_seconds`); an expired entry is
deleted as a side effect of the read and `None` is returned.  The wall
clock `time.time()` is the explicit parameter `now`; the function returns
the read result together with the cache state after the read. -/
def DataCache.get {V : Type} (c : DataCache V) (key : String) (ttl_seconds : ℚ)
    (now : ℚ) : Option V × DataCache V :=
  match c.store key with
  | none => (none, c)
  | some (v, ts) =>
    if now - ts < ttl_seconds then (some v, c)
    else (none, ⟨fun k => if k = key then none else c.store k⟩)

/-- `DataCache.set`: store the value and record the current time. -/
def DataCache.set {V : Type} (c : DataCache V) (key : String) (value : V)
    (now : ℚ) : DataCache V :=
  ⟨fun k => if k = key then some (value, now) else c.store k⟩

/-- `DataCache.invalidate`: remove a specific entry if present. -/
def DataCache.invalidate {V : Type} (c : DataCache V) (key : String) : DataCache V :=
  ⟨fun k => if k = key then none else c.store k⟩

/-- `DataCache.clear`: wipe everything. -/
def DataCache.clear {V : Type} (_c : DataCache V) : DataCache V :=
  ⟨fun _ => none⟩

/-- `invalidate_user_cache(user_id)`: clears the five cache entries
`ratings_{user_id}`, `history_{user_id}`, `tag_profile_{user_id}`,
`similar_users_{user_id}` and the shared `all_ratings` entry. -/
def invalidate_user_cache {V : Type} (c : DataCache V) (user_id : String) : DataCache V :=
  ((((c.invalidate ("ratings_" ++ user_id)).invalidate
      ("history_" ++ user_id)).invalidate
      ("tag_profile_" ++ user_id)).invalidate
      ("similar_users_" ++ user_id)).invalidate "all_ratings"

/-- A row of the `courses` table after renaming (`course_id`, `avg_rating`).
The text fields (`name`, `source_url`, `description`) play no role in the
scoring pipeline and are omitted. -/
structure Course where
  course_id : String
  avg_rating : ℚ
deriving DecidableEq, Repr

/-- A row of the `ratings` table: four integer sub-criteria, stored as
rationals because the derived rating divides by 4. -/
structure RatingRow where
  user_id : String
  course_id : String
  lecturer : ℚ
  material : ℚ
  grading : ℚ
  joy : ℚ
deriving DecidableEq, Repr

/-- The derived `rating` column: arithmetic mean of the four sub-criteria
(`(lecturer + material + grading + joy) / 4.0`). -/
def rating (r : RatingRow) : ℚ :=
  (r.lecturer + r.material + r.grading + r.joy) / 4

/-- First-match lookup in an association list, the alignment primitive
behind pandas index lookups (`series[key]` / join on an index whose keys
are unique). -/
def sLookup {β : Type} : List (String × β) → String → Option β
  | [], _ => none
  | (k, v) :: t, q => if k = q then some v else sLookup t q

/-- `groupby(key).sum()` over (key, value) rows: one entry per distinct key,
holding the sum of the values of the rows carrying that key. -/
def groupSum (rows : List (String × ℚ)) : List (String × ℚ) :=
  (rows.map Prod.fst).dedup.map fun k =>
    (k, ((rows.filter fun p => p.1 = k).map Prod.snd).sum)

/-- `Series.add(other, fill_value=0)`: index-aligned addition over the union
of the two key sets, missing values treated as 0. -/
def sAdd (a b : List (String × ℚ)) : List (String × ℚ) :=
  (a.map fun p => (p.1, p.2 + ((sLookup b p.1).getD 0))) ++
    b.filter fun p => p.1 ∉ a.map Prod.fst

/-- Sum of a series' values (`Series.sum()`). -/
def seriesSum (s : List (String × ℚ)) : ℚ := (s.map Prod.snd).sum

/-- Maximum of a list of values (`Series.max()`); the 0 returned for the
empty list is never consulted, since the source only takes the maximum
under a `sum > 0` guard. -/
def maxOf : List ℚ → ℚ
  | [] => 0
  | v :: t => max v (maxOf t)

/-- Maximum of a series' values. -/
def seriesMax (s : List (String × ℚ)) : ℚ := maxOf (s.map Prod.snd)

/-- One step of a stable ascending insertion sort: insert `x` before the
first element whose key is ≥ its own, so that among equal keys earlier
input elements stay first. -/
def insertAsc {α K : Type} [LinearOrder K] (key : α → K) (x : α) : List α → List α
  | [] => [x]
  | y :: ys => if key y < key x then y :: insertAsc key x ys else x :: y :: ys

/-- Ascending sort by a key: the order of numpy's ascending `argsort` as
pandas invokes it.  The default kind, quicksort (introsort), is an
insertion sort below its partition threshold and gives no tie-order
guarantee above it; the embedding takes the determinate stable insertion
sort as the ascending order. -/
def sortAsc {α K : Type} [LinearOrder K] (key : α → K) : List α → List α
  | [] => []
  | x :: xs => insertAsc key x (sortAsc key xs)

/-- `sort_values(by=key, ascending=False)`: pandas sorts ascending and
then reverses the indexer (`indexer[::-1]` in `nargsort`), so rows with
equal keys come out in the REVERSE of the ascending tie order — not in
input order. -/
def sortDesc {α K : Type} [LinearOrder K] (key : α → K) (l : List α) : List α :=
  (sortAsc key l).reverse

/-- `build_user_tag_profile`: the user's own ratings with derived score
≥ 2.5 (falling back to all of their ratings when none qualify), joined
against the course-tag table on `course_id`, grouped by tag; preference
weight per tag is `mean_rating × (1 + 0.1 × count)`.  `user_ratings` is
the table produced by `load_user_ratings(user_id)` and `course_tags` the
(course_id, tag) table produced by `load_course_tags()`. -/
def build_user_tag_profile (user_ratings : List RatingRow)
    (course_tags : List (String × String)) : List (String × ℚ) :=
  if user_ratings = [] ∨ course_tags = [] then [] else
  let high0 := user_ratings.filter fun r => 2.5 ≤ rating r
  let high := if high0 = [] then user_ratings else high0
  if high = [] then [] else
  let user_course_tags :=
    (high.map fun r =>
      (course_tags.filter fun ct => ct.1 = r.course_id).map fun ct =>
        (ct.2, rating r)).flatten
  if user_course_tags = [] then [] else
  (user_course_tags.map Prod.fst).dedup.map fun tg =>
    let rs := (user_course_tags.filter fun p => p.1 = tg).map Prod.snd
    (tg, (rs.sum / rs.length) * (1 + 0.1 * rs.length))

/-- The `candidate_tags` frame of `calculate_content_scores`: the tag
rows restricted to candidate courses. -/
def candidateTags (course_tags : List (String × String))
    (candidate_courses : List String) : List (String × String) :=
  course_tags.filter fun ct => ct.1 ∈ candidate_courses

/-- The initial zero content-score series over the candidates
(`pd.Series(0.0, index=candidate_courses)`). -/
def contentBase (candidate_courses : List String) : List (String × ℚ) :=
  candidate_courses.map fun c => (c, 0)

/-- The content-score series after the profile step: the base series plus
the per-course sums of the preferences of tags matching the user's
profile (inner merge on tag), skipped when the profile or the merge is
empty. -/
def contentS1 (course_tags : List (String × String))
    (candidate_courses : List String) (user_tag_profile : List (String × ℚ)) :
    List (String × ℚ) :=
  if user_tag_profile = [] then contentBase candidate_courses else
  if ((candidateTags course_tags candidate_courses).filterMap fun ct =>
      (sLookup user_tag_profile ct.2).map fun p => (ct.1, p)) = [] then
    contentBase candidate_courses
  else
    sAdd (contentBase candidate_courses)
      (groupSum ((candidateTags course_tags candidate_courses).filterMap fun ct =>
        (sLookup user_tag_profile ct.2).map fun p => (ct.1, p)))

/-- The content-score series after the desired-tag step: the `2.0 × count`
bonus for desired-tag matches, added when `desired_tags` is truthy. -/
def contentS2 (course_tags : List (String × String))
    (candidate_courses : List String) (user_tag_profile : List (String × ℚ))
    (desired_tags : Option (List String)) : List (String × ℚ) :=
  match desired_tags with
  | none => contentS1 course_tags candidate_courses user_tag_profile
  | some ds =>
    if ds = [] then contentS1 course_tags candidate_courses user_tag_profile else
    sAdd (contentS1 course_tags candidate_courses user_tag_profile)
      (groupSum (((candidateTags course_tags candidate_courses).filter fun ct =>
        ct.2 ∈ ds).map fun ct => (ct.1, (2.0 : ℚ))))

/-- The content-score series of `calculate_content_scores` just before the
final 0–5 rescaling and the reindex over the candidates: the profile and
desired-tag steps, replaced by the `0.5 × (tag count)` fallback when the
resulting sum is 0; the two early returns yield the zero series. -/
def contentRawScores (course_tags : List (String × String))
    (candidate_courses : List String) (user_tag_profile : List (String × ℚ))
    (desired_tags : Option (List String)) : List (String × ℚ) :=
  if course_tags = [] then contentBase candidate_courses else
  if candidateTags course_tags candidate_courses = [] then
    contentBase candidate_courses
  else if seriesSum (contentS2 course_tags candidate_courses user_tag_profile
      desired_tags) = 0 then
    groupSum ((candidateTags course_tags candidate_courses).map
      fun ct => (ct.1, (0.5 : ℚ)))
  else contentS2 course_tags candidate_courses user_tag_profile desired_tags

/-- The 0–5 rescaling step: when the raw maximum exceeds 5.0 (checked
under the source's `sum > 0` guard) the whole vector is scaled by
`5 / max`; otherwise it is returned unchanged. -/
def contentRescaled (course_tags : List (String × String))
    (candidate_courses : List String) (user_tag_profile : List (String × ℚ))
    (desired_tags : Option (List String)) : List (String × ℚ) :=
  if 0 < seriesSum (contentRawScores course_tags candidate_courses
      user_tag_profile desired_tags) then
    if 5 < seriesMax (contentRawScores course_tags candidate_courses
        user_tag_profile desired_tags) then
      (contentRawScores course_tags candidate_courses user_tag_profile
        desired_tags).map fun p =>
          (p.1, p.2 / seriesMax (contentRawScores course_tags candidate_courses
            user_tag_profile desired_tags) * 5)
    else contentRawScores course_tags candidate_courses user_tag_profile desired_tags
  else contentRawScores course_tags candidate_courses user_tag_profile desired_tags

/-- `calculate_content_scores`: the raw series, rescaled, and finally
reindexed over all candidate courses with missing entries filled with 0
(`reindex(candidate_courses, fill_value=0)`).  The two early returns
(`course_tags` empty / no candidate carries a tag) yield the zero series
over the candidates directly. -/
def calculate_content_scores (course_tags : List (String × String))
    (candidate_courses : List String) (user_tag_profile : List (String × ℚ))
    (desired_tags : Option (List String)) : List (String × ℚ) :=
  if course_tags = [] then contentBase candidate_courses else
  if candidateTags course_tags candidate_courses = [] then
    contentBase candidate_courses
  else
    candidate_courses.map fun c =>
      (c, (sLookup (contentRescaled course_tags candidate_courses
        user_tag_profile desired_tags) c).getD 0)

/-- Dot product of two rating vectors (`zipWith`-style, as on two rows of
the user-item matrix, which always have equal length). -/
def dotProd : List ℚ → List ℚ → ℚ
  | [], _ => 0
  | _, [] => 0
  | a :: xs, b :: ys => a * b + dotProd xs ys

/-- Squared Euclidean norm of a rating vector. -/
def normSq (x : List ℚ) : ℚ := dotProd x x

/-- Cosine similarity of two rating vectors, as `sklearn`'s
`cosine_similarity` computes it: each row is divided by its Euclidean
norm, with all-zero rows left unchanged, so any pair involving an all-zero
vector has similarity 0; that degenerate case is the explicit guard. -/
noncomputable def cosSim (x y : List ℚ) : ℝ :=
  if normSq x = 0 ∨ normSq y = 0 then 0
  else (dotProd x y : ℝ) / (Real.sqrt (normSq x) * Real.sqrt (normSq y))

/-- Row labels of the user-item matrix built by `build_user_item_matrix`
(`pivot_table(index='user_id', ...)`): the distinct user ids of the
all-ratings table. -/
def userIds (t : List RatingRow) : List String := (t.map RatingRow.user_id).dedup

/-- Column labels of the user-item matrix: the distinct course ids. -/
def courseIds (t : List RatingRow) : List String := (t.map RatingRow.course_id).dedup

/-- One cell of the user-item matrix: `pivot_table`'s default mean
aggregation of the user's derived ratings for the course, `fill_value=0`
when the user has not rated it. -/
def matrixEntry (t : List RatingRow) (u c : String) : ℚ :=
  let rs := (t.filter fun r => r.user_id = u ∧ r.course_id = c).map rating
  if rs = [] then 0 else rs.sum / rs.length

/-- A user's row vector in the user-item matrix. -/
def rowVec (t : List RatingRow) (u : String) : List ℚ :=
  (courseIds t).map (matrixEntry t u)

/-- `find_similar_users_cached(user_id, top_n=15)` on the all-ratings table
`t`: empty when the matrix is empty or the user has no row; otherwise the
cosine similarities of the target row against every row, the user itself
excluded, sorted descending, truncated to `top_n`, and filtered to
similarities strictly above the 0.05 noise floor.  (The cache wrapper
returns exactly this value.) -/
noncomputable def find_similar_users (t : List RatingRow) (user_id : String)
    (top_n : ℕ := 15) : List (String × ℝ) :=
  if t = [] ∨ user_id ∉ userIds t then [] else
  let sims := (userIds t).map fun u => (u, cosSim (rowVec t user_id) (rowVec t u))
  ((sortDesc Prod.snd (sims.filter fun p => p.1 ≠ user_id)).take top_n).filter
    fun p => (0.05 : ℝ) < p.2

/-- The restriction of the all-ratings table to rows whose user is one of
the similar users and whose course is one of the candidate courses
(`all_ratings[user_id.isin(similar_users.index) & course_id.isin(candidate_courses)]`). -/
noncomputable def contribRows (t : List RatingRow) (user_id : String)
    (candidate_courses : List String) : List RatingRow :=
  t.filter fun r =>
    r.user_id ∈ (find_similar_users t user_id).map Prod.fst ∧
    r.course_id ∈ candidate_courses

/-- The similarity weight merged onto a rating row
(`merge(similar_users.rename('similarity'), left_on='user_id', right_index=True)`). -/
noncomputable def simWeight (su : List (String × ℝ)) (u : String) : ℝ :=
  (sLookup su u).getD 0

/-- `predict_ratings_collaborative(user_id, candidate_courses)` on the
all-ratings table `t`: empty when there are no similar users or when the
similar users rated none of the candidates; otherwise, per course (the
`groupby('course_id')`), the similarity-weighted mean
`Σ(rating·similarity) / Σ(similarity)` of the similar users' ratings. -/
noncomputable def predict_ratings_collaborative (t : List RatingRow)
    (user_id : String) (candidate_courses : List String) : List (String × ℝ) :=
  let su := find_similar_users t user_id
  if su = [] then [] else
  let rel := contribRows t user_id candidate_courses
  if rel = [] then [] else
  ((rel.map RatingRow.course_id).dedup).map fun c =>
    let rows := rel.filter fun r => r.course_id = c
    (c, (rows.map fun r => (rating r : ℝ) * simWeight su r.user_id).sum /
        (rows.map fun r => simWeight su r.user_id).sum)

/-- A row of the final recommendation frame (the columns the scoring logic
touches; the tag list and reason strings, which no verified property
depends on, are omitted). -/
structure RecRow where
  course_id : String
  avg_rating : ℚ
  collab_score : ℝ
  content_score : ℝ
  final_score : ℝ
  confidence : String

/-- The candidate frame of `get_recommendations`: courses not in the
user's history (`~course_id.isin(taken_courses)`), further restricted —
when `desired_tags` is truthy and the tag table is non-empty — to courses
carrying at least one desired tag. -/
def candidatesAfterFilters (courses : List Course) (taken_courses : List String)
    (course_tags : List (String × String)) (desired_tags : Option (List String)) :
    List Course :=
  let candidates := courses.filter fun c => c.course_id ∉ taken_courses
  match desired_tags with
  | none => candidates
  | some ds =>
    if ds = [] then candidates else
    if course_tags = [] then candidates else
    let courses_with_tags := (course_tags.filter fun ct => ct.2 ∈ ds).map Prod.fst
    candidates.filter fun c => c.course_id ∈ courses_with_tags

/-- Score merge for one candidate: collaborative prediction aligned by
course id with absent predictions filled with 0 (`fillna(0)`), content
score looked up likewise, then the confidence-dependent final score
(`has_collab = collab_score > 0`). -/
noncomputable def recRow (preds : List (String × ℝ)) (content : List (String × ℚ))
    (collab_weight content_weight : ℝ) (c : Course) : RecRow :=
  let collab : ℝ := (sLookup preds c.course_id).getD 0
  let content_score : ℝ := ((sLookup content c.course_id).getD 0 : ℚ)
  if 0 < collab then
    { course_id := c.course_id, avg_rating := c.avg_rating,
      collab_score := collab, content_score := content_score,
      final_score := collab_weight * collab + content_weight * content_score,
      confidence := "high" }
  else
    { course_id := c.course_id, avg_rating := c.avg_rating,
      collab_score := collab, content_score := content_score,
      final_score := 0.6 * content_score + 0.4 * (c.avg_rating : ℝ),
      confidence := "medium" }

/-- The scored candidate rows of `get_recommendations`, in candidate
(input) order, before sorting and truncation. -/
noncomputable def recRows (courses : List Course) (course_tags : List (String × String))
    (all_ratings : List RatingRow) (taken_courses : List String)
    (user_ratings : List RatingRow) (user_id : String)
    (desired_tags : Option (List String)) (collab_weight content_weight : ℝ) :
    List RecRow :=
  let candidates := candidatesAfterFilters courses taken_courses course_tags desired_tags
  let candidate_courses := candidates.map Course.course_id
  let preds := predict_ratings_collaborative all_ratings user_id candidate_courses
  let profile := build_user_tag_profile user_ratings course_tags
  let content := calculate_content_scores course_tags candidate_courses profile desired_tags
  candidates.map (recRow preds content collab_weight content_weight)

/-- `get_recommendations(user_id, desired_tags, top_n, collab_weight,
content_weight)`: empty when no candidates remain after history exclusion
and desired-tag filtering; otherwise the scored rows sorted descending by
final score and truncated to `top_n`.  The tables are the loaders'
results; `user_id` is the already-normalized string form. -/
noncomputable def get_recommendations (courses : List Course)
    (course_tags : List (String × String)) (all_ratings : List RatingRow)
    (taken_courses : List String) (user_ratings : List RatingRow)
    (user_id : String) (desired_tags : Option (List String) := none)
    (top_n : ℕ := 10) (collab_weight : ℝ := 0.6) (content_weight : ℝ := 0.4) :
    List RecRow :=
  if candidatesAfterFilters courses taken_courses course_tags desired_tags = [] then []
  else
    (sortDesc RecRow.final_score
      (recRows courses course_tags all_ratings taken_courses user_ratings
        user_id desired_tags collab_weight content_weight)).take top_n

/-- Two users sharing one rated course (parallel one-dimensional rating
vectors): concrete data for the similarity pipeline. -/
def sampleRatings2 : List RatingRow :=
  [⟨"u1", "c1", 4, 4, 4, 4⟩, ⟨"u2", "c1", 3, 3, 3, 3⟩]

/-- Concrete all-ratings table on which user u2 (similarity 3/5 to u1) has
rated the candidate course c2 with derived rating 4. -/
def sampleRatings3 : List RatingRow :=
  [⟨"u1", "c1", 4, 4, 4, 4⟩, ⟨"u2", "c1", 3, 3, 3, 3⟩, ⟨"u2", "c2", 4, 4, 4, 4⟩]

section SortLemmas

variable {α K : Type} [LinearOrder K] (key : α → K)

theorem perm_insertAsc (x : α) (l : List α) :
    List.Perm (insertAsc key x l) (x :: l) := by
  induction l with
  | nil => rfl
  | cons y ys ih =>
    by_cases h : key y < key x
    · simp only [insertAsc, if_pos h]
      exact (ih.cons y).trans (List.Perm.swap x y ys)
    · simp [insertAsc, if_neg h]

theorem perm_sortAsc (l : List α) : List.Perm (sortAsc key l) l := by
  induction l with
  | nil => rfl
  | cons x xs ih => exact (perm_insertAsc key x (sortAsc key xs)).trans (ih.cons x)

theorem perm_sortDesc (l : List α) : List.Perm (sortDesc key l) l :=
  (sortAsc key l).reverse_perm.trans (perm_sortAsc key l)

theorem mem_sortDesc {a : α} {l : List α} : a ∈ sortDesc key l ↔ a ∈ l :=
  (perm_sortDesc key l).mem_iff

theorem pairwise_insertAsc (x : α) (l : List α)
    (h : l.Pairwise fun a b => key a ≤ key b) :
    (insertAsc key x l).Pairwise fun a b => key a ≤ key b := by
  induction l with
  | nil => simp [insertAsc]
  | cons y ys ih =>
    rcases List.pairwise_cons.mp h with ⟨hy, hys⟩
    by_cases hxy : key y < key x
    · simp only [insertAsc, if_pos hxy]
      refine List.pairwise_cons.mpr ⟨?_, ih hys⟩
      intro z hz
      rcases List.mem_cons.mp ((perm_insertAsc key x ys).mem_iff.mp hz) with rfl | hz'
      · exact hxy.le
      · exact hy z hz'
    · simp only [insertAsc, if_neg hxy]
      refine List.pairwise_cons.mpr ⟨?_, h⟩
      intro z hz
      rcases List.mem_cons.mp hz with rfl | hz'
      · exact not_lt.mp hxy
      · exact le_trans (not_lt.mp hxy) (hy z hz')

theorem pairwise_sortAsc (l : List α) :
    (sortAsc key l).Pairwise fun a b => key a ≤ key b := by
  induction l with
  | nil => simp [sortAsc]
  | cons x xs ih => exact pairwise_insertAsc key x (sortAsc key xs) ih

theorem pairwise_sortDesc (l : List α) :
    (sortDesc key l).Pairwise fun a b => key b ≤ key a :=
  List.pairwise_reverse.mpr (pairwise_sortAsc key l)

theorem length_sortDesc (l : List α) : (sortDesc key l).length = l.length :=
  (perm_sortDesc key l).length_eq

end SortLemmas

section LookupLemmas

variable {β : Type}

theorem sLookup_mem {s : List (String × β)} {k : String} {v : β}
    (h : sLookup s k = some v) : (k, v) ∈ s := by
  induction s with
  | nil => simp [sLookup] at h
  | cons p t ih =>
    obtain ⟨a, b⟩ := p
    by_cases hk : a = k
    · rw [sLookup, if_pos hk] at h
      obtain rfl := Option.some.inj h
      exact hk ▸ List.mem_cons_self _ _
    · rw [sLookup, if_neg hk] at h
      exact List.mem_cons_of_mem _ (ih h)

theorem sLookup_eq_none {s : List (String × β)} {k : String} :
    sLookup s k = none ↔ k ∉ s.map Prod.fst := by
  induction s with
  | nil => simp [sLookup]
  | cons p t ih =>
    obtain ⟨a, b⟩ := p
    by_cases hk : a = k
    · subst hk
      simp [sLookup]
    · rw [sLookup, if_neg hk]
      simp [ih, Ne.symm hk]

theorem sLookup_isSome_of_mem {s : List (String × β)} {k : String}
    (h : k ∈ s.map Prod.fst) : ∃ v, sLookup s k = some v := by
  cases hv : sLookup s k with
  | none => exact absurd (sLookup_eq_none.mp hv) (not_not.mpr h)
  | some v => exact ⟨v, rfl⟩

theorem sLookup_map_self (f : String → β) {l : List String} {c : String}
    (h : c ∈ l) : sLookup (l.map fun x => (x, f x)) c = some (f c) := by
  induction l with
  | nil => simp at h
  | cons a t ih =>
    rcases List.mem_cons.mp h with rfl | hc
    · simp [sLookup]
    · by_cases hac : a = c
      · subst hac; simp [sLookup]
      · simp only [List.map_cons, sLookup, if_neg hac]
        exact ih hc

theorem sLookup_of_mem_nodup {s : List (String × β)}
    (hnd : (s.map Prod.fst).Nodup) {k : String} {v : β} (h : (k, v) ∈ s) :
    sLookup s k = some v := by
  induction s with
  | nil => simp at h
  | cons p t ih =>
    obtain ⟨a, b⟩ := p
    rcases List.mem_cons.mp h with heq | hmem
    · obtain ⟨rfl, rfl⟩ := Prod.mk.injEq .. ▸ heq
      · simp [sLookup]
    · have ha : a ∉ t.map Prod.fst := (List.nodup_cons.mp hnd).1
      have hak : a ≠ k := by
        rintro rfl
        exact ha (List.mem_map.mpr ⟨(a, v), hmem, rfl⟩)
      rw [sLookup, if_neg hak]
      exact ih (List.nodup_cons.mp hnd).2 hmem

theorem sLookup_getD_nonneg {s : List (String × ℚ)}
    (h : ∀ p ∈ s, 0 ≤ p.2) (k : String) : 0 ≤ (sLookup s k).getD 0 := by
  cases hv : sLookup s k with
  | none => simp
  | some v => simpa using h (k, v) (sLookup_mem hv)

end LookupLemmas

section MaxLemmas

theorem le_maxOf {l : List ℚ} {x : ℚ} (h : x ∈ l) : x ≤ maxOf l := by
  induction l with
  | nil => simp at h
  | cons a t ih =>
    rcases List.mem_cons.mp h with rfl | hx
    · exact le_max_left _ _
    · exact le_trans (ih hx) (le_max_right _ _)

theorem maxOf_nonneg (l : List ℚ) : 0 ≤ maxOf l := by
  induction l with
  | nil => simp [maxOf]
  | cons a t ih => exact le_trans ih (le_max_right _ _)

theorem maxOf_le {l : List ℚ} {b : ℚ} (hb : 0 ≤ b) (h : ∀ x ∈ l, x ≤ b) :
    maxOf l ≤ b := by
  induction l with
  | nil => simpa [maxOf] using hb
  | cons a t ih =>
    exact max_le (h a (List.mem_cons_self a t))
      (ih fun x hx => h x (List.mem_cons_of_mem a hx))

theorem maxOf_mem {l : List ℚ} (hne : l ≠ []) (h : ∀ x ∈ l, 0 ≤ x) :
    maxOf l ∈ l := by
  induction l with
  | nil => exact absurd rfl hne
  | cons a t ih =>
    rcases eq_or_ne t [] with rfl | ht
    · have : maxOf [a] = a :=
        max_eq_left (h a (List.mem_cons_self a []))
      simp [this]
    · rcases le_total (maxOf t) a with hle | hle
      · simp only [maxOf, max_eq_left hle]
        exact List.mem_cons_self a t
      · simp only [maxOf, max_eq_right hle]
        exact List.mem_cons_of_mem a (ih ht fun x hx => h x (List.mem_cons_of_mem a hx))

theorem maxOf_map_scale {l : List ℚ} {m : ℚ} (hm : 0 ≤ m) :
    maxOf (l.map fun v => v / m * 5) = maxOf l / m * 5 := by
  induction l with
  | nil => simp [maxOf]
  | cons a t ih =>
    simp only [List.map_cons, maxOf, ih]
    rw [← max_mul_of_nonneg _ _ (by norm_num : (0:ℚ) ≤ 5), max_div_div_right hm]

theorem all_zero_of_sum_not_pos {l : List ℚ} (h : ∀ x ∈ l, 0 ≤ x)
    (hs : ¬ 0 < l.sum) : ∀ x ∈ l, x = 0 := by
  intro x hx
  have h1 : x ≤ l.sum := List.single_le_sum h x hx
  have h2 : l.sum ≤ 0 := not_lt.mp hs
  exact le_antisymm (h1.trans h2) (h x hx)

end MaxLemmas

section WeightedMeanLemmas

variable {α : Type}

theorem le_weighted_mean (g w : α → ℝ) (l : List α) (hl : l ≠ [])
    (hw : ∀ a ∈ l, 0 < w a) (lb : ℝ) (hlb : ∀ a ∈ l, lb ≤ g a) :
    lb ≤ (l.map fun a => g a * w a).sum / (l.map w).sum := by
  have hden : 0 < (l.map w).sum := by
    apply List.sum_pos
    · intro x hx
      obtain ⟨a, ha, rfl⟩ := List.mem_map.mp hx
      exact hw a ha
    · simpa using hl
  rw [le_div_iff₀ hden]
  calc lb * (l.map w).sum = (l.map fun a => lb * w a).sum := by
        rw [List.sum_map_mul_left]
    _ ≤ (l.map fun a => g a * w a).sum :=
        List.sum_le_sum fun a ha =>
          mul_le_mul_of_nonneg_right (hlb a ha) (hw a ha).le

theorem weighted_mean_le (g w : α → ℝ) (l : List α) (hl : l ≠ [])
    (hw : ∀ a ∈ l, 0 < w a) (ub : ℝ) (hub : ∀ a ∈ l, g a ≤ ub) :
    (l.map fun a => g a * w a).sum / (l.map w).sum ≤ ub := by
  have hden : 0 < (l.map w).sum := by
    apply List.sum_pos
    · intro x hx
      obtain ⟨a, ha, rfl⟩ := List.mem_map.mp hx
      exact hw a ha
    · simpa using hl
  rw [div_le_iff₀ hden]
  calc (l.map fun a => g a * w a).sum
      ≤ (l.map fun a => ub * w a).sum :=
        List.sum_le_sum fun a ha =>
          mul_le_mul_of_nonneg_right (hub a ha) (hw a ha).le
    _ = ub * (l.map w).sum := by rw [List.sum_map_mul_left]

end WeightedMeanLemmas

section CosineLemmas

theorem normSq_cons (a : ℚ) (xs : List ℚ) :
    normSq (a :: xs) = a * a + normSq xs := rfl

theorem normSq_nonneg (x : List ℚ) : 0 ≤ normSq x := by
  induction x with
  | nil => simp [normSq, dotProd]
  | cons a xs ih =>
    rw [normSq_cons]
    exact add_nonneg (mul_self_nonneg a) ih

theorem dotProd_sq_le (x y : List ℚ) : (dotProd x y) ^ 2 ≤ normSq x * normSq y := by
  induction x generalizing y with
  | nil => simp [dotProd, normSq]
  | cons a xs ih =>
    cases y with
    | nil => simp [dotProd, normSq]
    | cons b ys =>
      have hX := normSq_nonneg xs
      have hY := normSq_nonneg ys
      have hIH := ih ys
      rw [normSq_cons, normSq_cons]
      show (a * b + dotProd xs ys) ^ 2 ≤ (a * a + normSq xs) * (b * b + normSq ys)
      rcases eq_or_lt_of_le hY with hY0 | hY0
      · have hd : dotProd xs ys = 0 := by
          have h1 : (dotProd xs ys) ^ 2 ≤ 0 := by
            calc (dotProd xs ys) ^ 2 ≤ normSq xs * normSq ys := hIH
              _ = 0 := by rw [← hY0, mul_zero]
          have h2 : (dotProd xs ys) ^ 2 = 0 := le_antisymm h1 (sq_nonneg _)
          exact pow_eq_zero_iff (by norm_num) |>.mp h2
        rw [hd, ← hY0]
        nlinarith [mul_self_nonneg a, mul_self_nonneg b, hX]
      · -- with Y := normSq ys > 0, the key algebraic identity:
        -- Y·(RHS − LHS) = (a·Y − b·d)² + (b² + Y)·(X·Y − d²)
        have key : normSq ys *
            ((a * a + normSq xs) * (b * b + normSq ys) - (a * b + dotProd xs ys) ^ 2) =
            (a * normSq ys - b * dotProd xs ys) ^ 2 +
              (b * b + normSq ys) * (normSq xs * normSq ys - (dotProd xs ys) ^ 2) := by
          ring
        have hrhs : 0 ≤ (a * normSq ys - b * dotProd xs ys) ^ 2 +
            (b * b + normSq ys) * (normSq xs * normSq ys - (dotProd xs ys) ^ 2) := by
          apply add_nonneg (sq_nonneg _)
          exact mul_nonneg (add_nonneg (mul_self_nonneg b) hY) (sub_nonneg.mpr hIH)
        have hfac : 0 ≤ (a * a + normSq xs) * (b * b + normSq ys) -
            (a * b + dotProd xs ys) ^ 2 := by
          have := key ▸ hrhs
          exact nonneg_of_mul_nonneg_right this hY0
        linarith

theorem cosSim_le_one (x y : List ℚ) : cosSim x y ≤ 1 := by
  unfold cosSim
  split_ifs with h
  · norm_num
  · push_neg at h
    obtain ⟨hx, hy⟩ := h
    have hx' : (0:ℚ) < normSq x := lt_of_le_of_ne (normSq_nonneg x) (Ne.symm hx)
    have hy' : (0:ℚ) < normSq y := lt_of_le_of_ne (normSq_nonneg y) (Ne.symm hy)
    have hxR : (0:ℝ) < ((normSq x : ℚ) : ℝ) := by exact_mod_cast hx'
    have hyR : (0:ℝ) < ((normSq y : ℚ) : ℝ) := by exact_mod_cast hy'
    have hden : 0 < Real.sqrt (normSq x) * Real.sqrt (normSq y) :=
      mul_pos (Real.sqrt_pos.mpr hxR) (Real.sqrt_pos.mpr hyR)
    rw [div_le_one hden]
    have hcs : ((dotProd x y : ℚ) : ℝ) ^ 2 ≤ ((normSq x : ℚ) : ℝ) * ((normSq y : ℚ) : ℝ) := by
      exact_mod_cast dotProd_sq_le x y
    have hle : ((dotProd x y : ℚ) : ℝ) ≤
        Real.sqrt (((normSq x : ℚ) : ℝ) * ((normSq y : ℚ) : ℝ)) :=
      Real.le_sqrt_of_sq_le hcs
    rwa [Real.sqrt_mul hxR.le] at hle

end CosineLemmas

section StringKeyLemmas

theorem string_head_append (a u : String) (c : Char) (r : List Char)
    (h : a.data = c :: r) : (a ++ u).data.head? = some c := by
  rw [String.data_append, h]
  rfl

theorem append_ne_append_of_head_ne {a b : String} (u v : String) {c d : Char}
    {r1 r2 : List Char} (ha : a.data = c :: r1) (hb : b.data = d :: r2)
    (hcd : c ≠ d) : a ++ u ≠ b ++ v := by
  intro h
  have h1 := string_head_append a u c r1 ha
  have h2 := string_head_append b v d r2 hb
  rw [h, h2] at h1
  exact hcd (Option.some.inj h1).symm

theorem append_ne_lit {a : String} (u : String) {b : String} {c d : Char}
    {r1 r2 : List Char} (ha : a.data = c :: r1) (hb : b.data = d :: r2)
    (hcd : c ≠ d) : a ++ u ≠ b := by
  intro h
  have h1 := string_head_append a u c r1 ha
  have h2 : b.data.head? = some d := by rw [hb]; rfl
  rw [h, h2] at h1
  exact hcd (Option.some.inj h1).symm

theorem append_left_cancel_str {a u v : String} (h : a ++ u = a ++ v) : u = v := by
  have hd := congrArg String.data h
  rw [String.data_append, String.data_append] at hd
  have hl := List.append_cancel_left hd
  cases u
  cases v
  simpa using congrArg String.mk hl

theorem data_ratings : ("ratings_" : String).data = 'r' :: ("atings_" : String).data := rfl

theorem data_history : ("history_" : String).data = 'h' :: ("istory_" : String).data := rfl

theorem data_tag_profile :
    ("tag_profile_" : String).data = 't' :: ("ag_profile_" : String).data := rfl

theorem data_similar_users :
    ("similar_users_" : String).data = 's' :: ("imilar_users_" : String).data := rfl

theorem data_all_ratings :
    ("all_ratings" : String).data = 'a' :: ("ll_ratings" : String).data := rfl

end StringKeyLemmas

section CacheLemmas

variable {V : Type}

theorem invalidate_store_self (c : DataCache V) (key : String) :
    (c.invalidate key).store key = none := by
  simp [DataCache.invalidate]

theorem invalidate_store_ne (c : DataCache V) (key k : String) (h : k ≠ key) :
    (c.invalidate key).store k = c.store k := by
  simp [DataCache.invalidate, h]

/-- Frame part of `invalidate_user_cache`: a key distinct from all five
invalidated keys is untouched. -/
theorem invalidate_user_store_ne (c : DataCache V) (U k : String)
    (h1 : k ≠ "ratings_" ++ U) (h2 : k ≠ "history_" ++ U)
    (h3 : k ≠ "tag_profile_" ++ U) (h4 : k ≠ "similar_users_" ++ U)
    (h5 : k ≠ "all_ratings") :
    (invalidate_user_cache c U).store k = c.store k := by
  unfold invalidate_user_cache
  rw [invalidate_store_ne _ _ _ h5, invalidate_store_ne _ _ _ h4,
    invalidate_store_ne _ _ _ h3, invalidate_store_ne _ _ _ h2,
    invalidate_store_ne _ _ _ h1]

end CacheLemmas

section SimilarUserLemmas

theorem mem_find_similar_users {t : List RatingRow} {uid : String} {n : ℕ}
    {p : String × ℝ} (hp : p ∈ find_similar_users t uid n) :
    p.1 ≠ uid ∧ (0.05 : ℝ) < p.2 ∧ p.2 ≤ 1 := by
  unfold find_similar_users at hp
  split_ifs at hp with h
  · simp at hp
  · have h005 : (0.05 : ℝ) < p.2 := by
      have := List.of_mem_filter hp
      simpa using this
    have hp2 := List.mem_of_mem_filter hp
    have hp3 := List.take_subset _ _ hp2
    have hp4 := (mem_sortDesc Prod.snd).mp hp3
    have hne : p.1 ≠ uid := by
      have := List.of_mem_filter hp4
      simpa using this
    have hp5 := List.mem_of_mem_filter hp4
    obtain ⟨u, _, rfl⟩ := List.mem_map.mp hp5
    exact ⟨hne, h005, cosSim_le_one _ _⟩

theorem length_find_similar_users (t : List RatingRow) (uid : String) (n : ℕ) :
    (find_similar_users t uid n).length ≤ n := by
  unfold find_similar_users
  split_ifs with h
  · simp
  · exact le_trans (List.length_filter_le _ _) (List.length_take_le _ _)

theorem find_similar_users_eq_nil {t : List RatingRow} {uid : String} (n : ℕ)
    (h : uid ∉ userIds t) : find_similar_users t uid n = [] := by
  unfold find_similar_users
  rw [if_pos (Or.inr h)]

theorem nodup_keys_find_similar_users (t : List RatingRow) (uid : String) (n : ℕ) :
    ((find_similar_users t uid n).map Prod.fst).Nodup := by
  unfold find_similar_users
  split_ifs with h
  · simp
  · have h0 : ((((userIds t).map fun u =>
        (u, cosSim (rowVec t uid) (rowVec t u))).filter fun p =>
          p.1 ≠ uid).map Prod.fst).Nodup := by
      apply List.Nodup.sublist (List.Sublist.map Prod.fst (List.filter_sublist _))
      simp only [List.map_map]
      have hcomp : (Prod.fst ∘ fun u => (u, cosSim (rowVec t uid) (rowVec t u))) = id := rfl
      rw [hcomp, List.map_id]
      exact List.nodup_dedup _
    have h1 : ((sortDesc Prod.snd (((userIds t).map fun u =>
        (u, cosSim (rowVec t uid) (rowVec t u))).filter fun p =>
          p.1 ≠ uid)).map Prod.fst).Nodup :=
      (((perm_sortDesc Prod.snd _).map Prod.fst).nodup_iff).mpr h0
    have h2 := List.Nodup.sublist (List.Sublist.map Prod.fst (List.take_sublist n _)) h1
    exact List.Nodup.sublist (List.Sublist.map Prod.fst (List.filter_sublist _)) h2

theorem simWeight_find_pos {t : List RatingRow} {uid : String} {u : String}
    (hu : u ∈ (find_similar_users t uid).map Prod.fst) :
    0 < simWeight (find_similar_users t uid) u := by
  obtain ⟨v, hv⟩ := sLookup_isSome_of_mem hu
  have hmem := sLookup_mem hv
  have hgt := (mem_find_similar_users hmem).2.1
  rw [simWeight, hv]
  simp only [Option.getD_some]
  linarith

theorem predict_eq (t : List RatingRow) (uid : String) (cands : List String) :
    predict_ratings_collaborative t uid cands =
      if find_similar_users t uid = [] then []
      else if contribRows t uid cands = [] then []
      else
        (((contribRows t uid cands).map RatingRow.course_id).dedup).map fun c =>
          (c, (((contribRows t uid cands).filter fun r => r.course_id = c).map
                fun r => (rating r : ℝ) *
                  simWeight (find_similar_users t uid) r.user_id).sum /
              (((contribRows t uid cands).filter fun r => r.course_id = c).map
                fun r => simWeight (find_similar_users t uid) r.user_id).sum) := rfl

theorem mem_predict {t : List RatingRow} {uid : String} {cands : List String}
    {p : String × ℝ} (hp : p ∈ predict_ratings_collaborative t uid cands) :
    (contribRows t uid cands).filter (fun r => r.course_id = p.1) ≠ [] ∧
    (∀ r ∈ (contribRows t uid cands).filter (fun r => r.course_id = p.1),
      0 < simWeight (find_similar_users t uid) r.user_id) ∧
    p.2 = (((contribRows t uid cands).filter (fun r => r.course_id = p.1)).map
            fun r => (rating r : ℝ) * simWeight (find_similar_users t uid) r.user_id).sum /
          (((contribRows t uid cands).filter (fun r => r.course_id = p.1)).map
            fun r => simWeight (find_similar_users t uid) r.user_id).sum := by
  have hcontrib : ∀ r ∈ contribRows t uid cands,
      0 < simWeight (find_similar_users t uid) r.user_id := by
    intro r hr
    have := List.of_mem_filter hr
    simp only [decide_eq_true_eq] at this
    exact simWeight_find_pos this.1
  rw [predict_eq] at hp
  split_ifs at hp with h1 h2
  · simp at hp
  · simp at hp
  · obtain ⟨c, hc, rfl⟩ := List.mem_map.mp hp
    refine ⟨?_, ?_, rfl⟩
    · have hc2 := List.mem_dedup.mp hc
      obtain ⟨r, hr, hrc⟩ := List.mem_map.mp hc2
      exact List.ne_nil_of_mem (List.mem_filter_of_mem hr (by simpa using hrc))
    · intro r hr
      exact hcontrib r (List.mem_of_mem_filter hr)

theorem predict_lookup_eq_none {t : List RatingRow} {uid : String}
    {cands : List String} {c : String}
    (hc : c ∉ (contribRows t uid cands).map RatingRow.course_id) :
    sLookup (predict_ratings_collaborative t uid cands) c = none := by
  apply sLookup_eq_none.mpr
  intro hmem
  rw [predict_eq] at hmem
  split_ifs at hmem with h1 h2
  · simp at hmem
  · simp at hmem
  · simp only [List.map_map] at hmem
    have hcomp : (Prod.fst ∘ fun c =>
        ((c : String), ((((contribRows t uid cands).filter fun r => r.course_id = c).map
            fun r => (rating r : ℝ) *
              simWeight (find_similar_users t uid) r.user_id).sum /
          (((contribRows t uid cands).filter fun r => r.course_id = c).map
            fun r => simWeight (find_similar_users t uid) r.user_id).sum))) = id := rfl
    rw [hcomp, List.map_id] at hmem
    exact hc (List.mem_dedup.mp hmem)

theorem find_similar_users_eq (t : List RatingRow) (uid : String) (n : ℕ) :
    find_similar_users t uid n =
      if t = [] ∨ uid ∉ userIds t then []
      else
        ((sortDesc Prod.snd (((userIds t).map fun u =>
            (u, cosSim (rowVec t uid) (rowVec t u))).filter fun p =>
              p.1 ≠ uid)).take n).filter fun p => (0.05 : ℝ) < p.2 := rfl

theorem rowVec_sample2_u1 : rowVec sampleRatings2 "u1" = [4] := by
  have hc : courseIds sampleRatings2 = ["c1"] := by decide
  rw [rowVec, hc]
  norm_num +decide [matrixEntry, sampleRatings2, rating, List.filter]

theorem rowVec_sample2_u2 : rowVec sampleRatings2 "u2" = [3] := by
  have hc : courseIds sampleRatings2 = ["c1"] := by decide
  rw [rowVec, hc]
  norm_num +decide [matrixEntry, sampleRatings2, rating, List.filter]

theorem sqrt_sixteen : Real.sqrt 16 = 4 := by
  rw [show (16:ℝ) = 4 ^ 2 by norm_num, Real.sqrt_sq (by norm_num : (0:ℝ) ≤ 4)]

theorem sqrt_nine : Real.sqrt 9 = 3 := by
  rw [show (9:ℝ) = 3 ^ 2 by norm_num, Real.sqrt_sq (by norm_num : (0:ℝ) ≤ 3)]

theorem sqrt_twentyfive : Real.sqrt 25 = 5 := by
  rw [show (25:ℝ) = 5 ^ 2 by norm_num, Real.sqrt_sq (by norm_num : (0:ℝ) ≤ 5)]

theorem cosSim_sample2 :
    cosSim (rowVec sampleRatings2 "u1") (rowVec sampleRatings2 "u2") = 1 := by
  rw [rowVec_sample2_u1, rowVec_sample2_u2, cosSim]
  have h1 : normSq ([4] : List ℚ) = 16 := by norm_num [normSq, dotProd]
  have h2 : normSq ([3] : List ℚ) = 9 := by norm_num [normSq, dotProd]
  have h3 : dotProd ([4] : List ℚ) [3] = 12 := by norm_num [dotProd]
  rw [h1, h2, h3, if_neg (by norm_num)]
  push_cast
  rw [sqrt_sixteen, sqrt_nine]
  norm_num

theorem fsu_sample2 : find_similar_users sampleRatings2 "u1" 15 = [("u2", 1)] := by
  have hu : userIds sampleRatings2 = ["u1", "u2"] := by decide
  rw [find_similar_users_eq, if_neg (by decide), hu]
  simp only [List.map_cons, List.map_nil]
  rw [cosSim_sample2]
  norm_num +decide [List.filter, sortDesc, sortAsc, insertAsc, List.take]

theorem rowVec_sample3_u1 : rowVec sampleRatings3 "u1" = [4, 0] := by
  have hc : courseIds sampleRatings3 = ["c1", "c2"] := by decide
  rw [rowVec, hc]
  norm_num +decide [matrixEntry, sampleRatings3, rating, List.filter]

theorem rowVec_sample3_u2 : rowVec sampleRatings3 "u2" = [3, 4] := by
  have hc : courseIds sampleRatings3 = ["c1", "c2"] := by decide
  rw [rowVec, hc]
  norm_num +decide [matrixEntry, sampleRatings3, rating, List.filter]

theorem cosSim_sample3 :
    cosSim (rowVec sampleRatings3 "u1") (rowVec sampleRatings3 "u2") = 3 / 5 := by
  rw [rowVec_sample3_u1, rowVec_sample3_u2, cosSim]
  have h1 : normSq ([4, 0] : List ℚ) = 16 := by norm_num [normSq, dotProd]
  have h2 : normSq ([3, 4] : List ℚ) = 25 := by norm_num [normSq, dotProd]
  have h3 : dotProd ([4, 0] : List ℚ) [3, 4] = 12 := by norm_num [dotProd]
  rw [h1, h2, h3, if_neg (by norm_num)]
  push_cast
  rw [sqrt_sixteen, sqrt_twentyfive]
  norm_num

theorem fsu_sample3 :
    find_similar_users sampleRatings3 "u1" 15 = [("u2", 3 / 5)] := by
  have hu : userIds sampleRatings3 = ["u1", "u2"] := by decide
  rw [find_similar_users_eq, if_neg (by decide), hu]
  simp only [List.map_cons, List.map_nil]
  rw [cosSim_sample3]
  norm_num +decide [List.filter, sortDesc, sortAsc, insertAsc, List.take]

theorem contrib_sample3 :
    contribRows sampleRatings3 "u1" ["c2"] = [⟨"u2", "c2", 4, 4, 4, 4⟩] := by
  rw [contribRows, fsu_sample3]
  norm_num +decide [sampleRatings3, List.filter]

theorem predict_sample3 :
    predict_ratings_collaborative sampleRatings3 "u1" ["c2"] = [("c2", 4)] := by
  rw [predict_eq, contrib_sample3, fsu_sample3]
  rw [if_neg (by simp), if_neg (by simp)]
  norm_num +decide [List.filter, rating, simWeight, sLookup]

theorem weights_sample3 :
    (((contribRows sampleRatings3 "u1" ["c2"]).filter fun r =>
        r.course_id = "c2").map fun r =>
        simWeight (find_similar_users sampleRatings3 "u1") r.user_id) = [(3:ℝ)/5] := by
  rw [contrib_sample3, fsu_sample3]
  norm_num +decide [List.filter, simWeight, sLookup]

theorem rating_bounds {r : RatingRow}
    (h : (1 ≤ r.lecturer ∧ r.lecturer ≤ 5) ∧ (1 ≤ r.material ∧ r.material ≤ 5) ∧
         (1 ≤ r.grading ∧ r.grading ≤ 5) ∧ (1 ≤ r.joy ∧ r.joy ≤ 5)) :
    1 ≤ rating r ∧ rating r ≤ 5 := by
  obtain ⟨⟨a1, a2⟩, ⟨b1, b2⟩, ⟨c1, c2⟩, ⟨d1, d2⟩⟩ := h
  rw [rating]
  constructor <;> [linarith; linarith]

end SimilarUserLemmas

section ContentLemmas

theorem contentBase_keys (cands : List String) :
    (contentBase cands).map Prod.fst = cands := by
  rw [contentBase, List.map_map]
  have hcomp : (Prod.fst ∘ fun c : String => (c, (0:ℚ))) = id := rfl
  rw [hcomp, List.map_id]

theorem mem_contentBase {cands : List String} {p : String × ℚ}
    (hp : p ∈ contentBase cands) : p.1 ∈ cands ∧ p.2 = 0 := by
  obtain ⟨c, hc, rfl⟩ := List.mem_map.mp hp
  exact ⟨hc, rfl⟩

theorem sLookup_contentBase {cands : List String} {c : String} (hc : c ∈ cands) :
    sLookup (contentBase cands) c = some 0 :=
  sLookup_map_self (fun _ => (0:ℚ)) hc

theorem groupSum_nonneg {rows : List (String × ℚ)} (h : ∀ p ∈ rows, 0 ≤ p.2) :
    ∀ p ∈ groupSum rows, 0 ≤ p.2 := by
  intro p hp
  obtain ⟨k, _, rfl⟩ := List.mem_map.mp hp
  apply List.sum_nonneg
  intro x hx
  obtain ⟨q, hq, rfl⟩ := List.mem_map.mp hx
  exact h q (List.mem_of_mem_filter hq)

theorem groupSum_key_mem {rows : List (String × ℚ)} {p : String × ℚ}
    (hp : p ∈ groupSum rows) : p.1 ∈ rows.map Prod.fst := by
  obtain ⟨k, hk, rfl⟩ := List.mem_map.mp hp
  exact List.mem_dedup.mp hk

theorem groupSum_keys_nodup (rows : List (String × ℚ)) :
    ((groupSum rows).map Prod.fst).Nodup := by
  rw [groupSum, List.map_map]
  have hcomp : (Prod.fst ∘ fun k =>
      ((k : String), ((rows.filter fun p => p.1 = k).map Prod.snd).sum)) = id := rfl
  rw [hcomp, List.map_id]
  exact List.nodup_dedup _

theorem sAdd_nonneg {a b : List (String × ℚ)} (ha : ∀ p ∈ a, 0 ≤ p.2)
    (hb : ∀ p ∈ b, 0 ≤ p.2) : ∀ p ∈ sAdd a b, 0 ≤ p.2 := by
  intro p hp
  rw [sAdd] at hp
  rcases List.mem_append.mp hp with h | h
  · obtain ⟨q, hq, rfl⟩ := List.mem_map.mp h
    exact add_nonneg (ha q hq) (sLookup_getD_nonneg hb q.1)
  · exact hb p (List.mem_of_mem_filter h)

theorem sAdd_key_mem {a b : List (String × ℚ)} {p : String × ℚ}
    (hp : p ∈ sAdd a b) : p.1 ∈ a.map Prod.fst ∨ p.1 ∈ b.map Prod.fst := by
  rw [sAdd] at hp
  rcases List.mem_append.mp hp with h | h
  · obtain ⟨q, hq, rfl⟩ := List.mem_map.mp h
    exact Or.inl (List.mem_map.mpr ⟨q, hq, rfl⟩)
  · exact Or.inr (List.mem_map.mpr ⟨p, List.mem_of_mem_filter h, rfl⟩)

theorem sAdd_keys_nodup {a b : List (String × ℚ)}
    (ha : (a.map Prod.fst).Nodup) (hb : (b.map Prod.fst).Nodup) :
    ((sAdd a b).map Prod.fst).Nodup := by
  have hcomp : (Prod.fst ∘ fun p : String × ℚ =>
      (p.1, p.2 + (sLookup b p.1).getD 0)) = Prod.fst := rfl
  rw [sAdd, List.map_append]
  apply List.Nodup.append
  · rw [List.map_map, hcomp]
    exact ha
  · exact List.Nodup.sublist (List.Sublist.map Prod.fst (List.filter_sublist _)) hb
  · intro x hx1 hx2
    rw [List.map_map, hcomp] at hx1
    obtain ⟨q, hq, rfl⟩ := List.mem_map.mp hx2
    have hq2 := List.of_mem_filter hq
    simp only [decide_not, Bool.not_eq_eq_eq_not, Bool.not_true, decide_eq_false_iff_not] at hq2
    exact hq2 hx1

theorem candidateTags_key_mem {ct : List (String × String)} {cands : List String}
    {x : String × String} (hx : x ∈ candidateTags ct cands) : x.1 ∈ cands := by
  have h := List.of_mem_filter hx
  simpa using h

theorem contentS1_nonneg {ct : List (String × String)} {cands : List String}
    {prof : List (String × ℚ)} (hprof : ∀ p ∈ prof, 0 ≤ p.2) :
    ∀ p ∈ contentS1 ct cands prof, 0 ≤ p.2 := by
  intro p hp
  rw [contentS1] at hp
  split_ifs at hp with h1 h2
  · exact le_of_eq (mem_contentBase hp).2.symm
  · exact le_of_eq (mem_contentBase hp).2.symm
  · refine sAdd_nonneg (fun q hq => le_of_eq (mem_contentBase hq).2.symm) ?_ p hp
    apply groupSum_nonneg
    intro q hq
    obtain ⟨ct', _, hq'⟩ := List.mem_filterMap.mp hq
    obtain ⟨v, hv, rfl⟩ := Option.map_eq_some'.mp hq'
    exact hprof (ct'.2, v) (sLookup_mem hv)

theorem contentS1_key_mem {ct : List (String × String)} {cands : List String}
    {prof : List (String × ℚ)} {p : String × ℚ}
    (hp : p ∈ contentS1 ct cands prof) : p.1 ∈ cands := by
  rw [contentS1] at hp
  split_ifs at hp with h1 h2
  · exact (mem_contentBase hp).1
  · exact (mem_contentBase hp).1
  · rcases sAdd_key_mem hp with h | h
    · rw [contentBase_keys] at h
      exact h
    · obtain ⟨q, hq, hq1⟩ := List.mem_map.mp h
      have hgk := groupSum_key_mem hq
      obtain ⟨q', hq', hq'1⟩ := List.mem_map.mp hgk
      obtain ⟨ct', hct', hq''⟩ := List.mem_filterMap.mp hq'
      obtain ⟨v, _, rfl⟩ := Option.map_eq_some'.mp hq''
      rw [← hq1, ← hq'1]
      exact candidateTags_key_mem hct'

theorem contentS1_keys_nodup {ct : List (String × String)} {cands : List String}
    {prof : List (String × ℚ)} (hnd : cands.Nodup) :
    ((contentS1 ct cands prof).map Prod.fst).Nodup := by
  rw [contentS1]
  split_ifs with h1 h2
  · rw [contentBase_keys]; exact hnd
  · rw [contentBase_keys]; exact hnd
  · exact sAdd_keys_nodup (by rw [contentBase_keys]; exact hnd) (groupSum_keys_nodup _)

theorem contentS2_nonneg {ct : List (String × String)} {cands : List String}
    {prof : List (String × ℚ)} {des : Option (List String)}
    (hprof : ∀ p ∈ prof, 0 ≤ p.2) :
    ∀ p ∈ contentS2 ct cands prof des, 0 ≤ p.2 := by
  intro p hp
  cases des with
  | none => exact contentS1_nonneg hprof p hp
  | some ds =>
    rw [contentS2] at hp
    split_ifs at hp with h1
    · exact contentS1_nonneg hprof p hp
    · refine sAdd_nonneg (contentS1_nonneg hprof) ?_ p hp
      apply groupSum_nonneg
      intro q hq
      obtain ⟨ct', _, rfl⟩ := List.mem_map.mp hq
      norm_num

theorem contentS2_key_mem {ct : List (String × String)} {cands : List String}
    {prof : List (String × ℚ)} {des : Option (List String)} {p : String × ℚ}
    (hp : p ∈ contentS2 ct cands prof des) : p.1 ∈ cands := by
  cases des with
  | none => exact contentS1_key_mem hp
  | some ds =>
    rw [contentS2] at hp
    split_ifs at hp with h1
    · exact contentS1_key_mem hp
    · rcases sAdd_key_mem hp with h | h
      · obtain ⟨q, hq, hq1⟩ := List.mem_map.mp h
        rw [← hq1]
        exact contentS1_key_mem hq
      · obtain ⟨q, hq, hq1⟩ := List.mem_map.mp h
        have hgk := groupSum_key_mem hq
        obtain ⟨q', hq', hq'1⟩ := List.mem_map.mp hgk
        obtain ⟨ct', hct', rfl⟩ := List.mem_map.mp hq'
        rw [← hq1, ← hq'1]
        exact candidateTags_key_mem (List.mem_of_mem_filter hct')

theorem contentS2_keys_nodup {ct : List (String × String)} {cands : List String}
    {prof : List (String × ℚ)} {des : Option (List String)} (hnd : cands.Nodup) :
    ((contentS2 ct cands prof des).map Prod.fst).Nodup := by
  cases des with
  | none => exact contentS1_keys_nodup hnd
  | some ds =>
    rw [contentS2]
    split_ifs with h1
    · exact contentS1_keys_nodup hnd
    · exact sAdd_keys_nodup (contentS1_keys_nodup hnd) (groupSum_keys_nodup _)

theorem contentRaw_nonneg {ct : List (String × String)} {cands : List String}
    {prof : List (String × ℚ)} {des : Option (List String)}
    (hprof : ∀ p ∈ prof, 0 ≤ p.2) :
    ∀ p ∈ contentRawScores ct cands prof des, 0 ≤ p.2 := by
  intro p hp
  rw [contentRawScores] at hp
  split_ifs at hp with h1 h2 h3
  · exact le_of_eq (mem_contentBase hp).2.symm
  · exact le_of_eq (mem_contentBase hp).2.symm
  · refine groupSum_nonneg ?_ p hp
    intro q hq
    obtain ⟨ct', _, rfl⟩ := List.mem_map.mp hq
    norm_num
  · exact contentS2_nonneg hprof p hp

theorem contentRaw_key_mem {ct : List (String × String)} {cands : List String}
    {prof : List (String × ℚ)} {des : Option (List String)} {p : String × ℚ}
    (hp : p ∈ contentRawScores ct cands prof des) : p.1 ∈ cands := by
  rw [contentRawScores] at hp
  split_ifs at hp with h1 h2 h3
  · exact (mem_contentBase hp).1
  · exact (mem_contentBase hp).1
  · have hgk := groupSum_key_mem hp
    obtain ⟨q', hq', hq'1⟩ := List.mem_map.mp hgk
    obtain ⟨ct', hct', rfl⟩ := List.mem_map.mp hq'
    rw [← hq'1]
    exact candidateTags_key_mem hct'
  · exact contentS2_key_mem hp

theorem contentRaw_keys_nodup {ct : List (String × String)} {cands : List String}
    {prof : List (String × ℚ)} {des : Option (List String)} (hnd : cands.Nodup) :
    ((contentRawScores ct cands prof des).map Prod.fst).Nodup := by
  rw [contentRawScores]
  split_ifs with h1 h2 h3
  · rw [contentBase_keys]; exact hnd
  · rw [contentBase_keys]; exact hnd
  · exact groupSum_keys_nodup _
  · exact contentS2_keys_nodup hnd

theorem contentRescaled_keys_eq (ct : List (String × String)) (cands : List String)
    (prof : List (String × ℚ)) (des : Option (List String)) :
    (contentRescaled ct cands prof des).map Prod.fst =
      (contentRawScores ct cands prof des).map Prod.fst := by
  rw [contentRescaled]
  split_ifs with h1 h2
  · rw [List.map_map]
    rfl
  · rfl
  · rfl

theorem mem_contentRescaled_bounds {ct : List (String × String)} {cands : List String}
    {prof : List (String × ℚ)} {des : Option (List String)}
    (hprof : ∀ p ∈ prof, 0 ≤ p.2) :
    ∀ p ∈ contentRescaled ct cands prof des, 0 ≤ p.2 ∧ p.2 ≤ 5 := by
  intro p hp
  have hraw : ∀ p ∈ contentRawScores ct cands prof des, 0 ≤ p.2 :=
    contentRaw_nonneg hprof
  rw [contentRescaled] at hp
  split_ifs at hp with h1 h2
  · obtain ⟨q, hq, rfl⟩ := List.mem_map.mp hp
    have hqle : q.2 ≤ seriesMax (contentRawScores ct cands prof des) :=
      le_maxOf (List.mem_map.mpr ⟨q, hq, rfl⟩)
    have hM0 : (0:ℚ) < seriesMax (contentRawScores ct cands prof des) := by linarith
    constructor
    · exact mul_nonneg (div_nonneg (hraw q hq) hM0.le) (by norm_num)
    · have hdiv : q.2 / seriesMax (contentRawScores ct cands prof des) ≤ 1 :=
        (div_le_one hM0).mpr hqle
      calc q.2 / seriesMax (contentRawScores ct cands prof des) * 5
          ≤ 1 * 5 := mul_le_mul_of_nonneg_right hdiv (by norm_num)
        _ = 5 := by norm_num
  · refine ⟨hraw p hp, ?_⟩
    have hle : p.2 ≤ seriesMax (contentRawScores ct cands prof des) :=
      le_maxOf (List.mem_map.mpr ⟨p, hp, rfl⟩)
    linarith [not_lt.mp h2]
  · have hvnn : ∀ x ∈ (contentRawScores ct cands prof des).map Prod.snd, 0 ≤ x := by
      intro x hx
      obtain ⟨q, hq, rfl⟩ := List.mem_map.mp hx
      exact hraw q hq
    have hz := all_zero_of_sum_not_pos hvnn h1 p.2 (List.mem_map.mpr ⟨p, hp, rfl⟩)
    rw [hz]
    norm_num

theorem contentRescaled_noop {ct : List (String × String)} {cands : List String}
    {prof : List (String × ℚ)} {des : Option (List String)}
    (h : seriesMax (contentRawScores ct cands prof des) ≤ 5) :
    contentRescaled ct cands prof des = contentRawScores ct cands prof des := by
  rw [contentRescaled]
  split_ifs with h1 h2
  · exact absurd h2 (not_lt.mpr h)
  · rfl
  · rfl

theorem maxOf_const_zero (l : List String) :
    maxOf (l.map fun _ => (0:ℚ)) = 0 := by
  induction l with
  | nil => rfl
  | cons a t ih =>
    show max 0 (maxOf (t.map fun _ => (0:ℚ))) = 0
    rw [ih]
    exact max_self 0

theorem seriesMax_contentBase (cands : List String) :
    seriesMax (contentBase cands) = 0 := by
  rw [seriesMax, contentBase, List.map_map]
  exact maxOf_const_zero cands

theorem contentRescaled_attains_five {ct : List (String × String)}
    {cands : List String} {prof : List (String × ℚ)} {des : Option (List String)}
    (hprof : ∀ p ∈ prof, 0 ≤ p.2)
    (h5 : 5 < seriesMax (contentRawScores ct cands prof des)) :
    ∃ p ∈ contentRescaled ct cands prof des, p.2 = 5 := by
  have hraw : ∀ p ∈ contentRawScores ct cands prof des, 0 ≤ p.2 :=
    contentRaw_nonneg hprof
  have hvnn : ∀ x ∈ (contentRawScores ct cands prof des).map Prod.snd, 0 ≤ x := by
    intro x hx
    obtain ⟨q, hq, rfl⟩ := List.mem_map.mp hx
    exact hraw q hq
  have hne : (contentRawScores ct cands prof des).map Prod.snd ≠ [] := by
    intro h0
    rw [seriesMax, h0] at h5
    norm_num [maxOf] at h5
  have hmax_mem : seriesMax (contentRawScores ct cands prof des) ∈
      (contentRawScores ct cands prof des).map Prod.snd := maxOf_mem hne hvnn
  obtain ⟨q, hq, hqv⟩ := List.mem_map.mp hmax_mem
  have hsum : 0 < seriesSum (contentRawScores ct cands prof des) := by
    by_contra hno
    have hz := all_zero_of_sum_not_pos hvnn hno _ hmax_mem
    rw [hz] at h5
    norm_num at h5
  rw [contentRescaled, if_pos hsum, if_pos h5]
  refine ⟨(q.1, q.2 / seriesMax (contentRawScores ct cands prof des) * 5),
    List.mem_map.mpr ⟨q, hq, rfl⟩, ?_⟩
  simp only
  rw [hqv, div_self (by linarith), one_mul]

end ContentLemmas

/-- Claim C8: every candidate's content score lies in [0, 5] after
rescaling; when the raw maximum exceeds 5.0 the vector is linearly scaled
so the maximum of the returned scores is exactly 5.0; when the raw
maximum is already ≤ 5 the rescaling is a no-op (the result is just the
raw series reindexed over the candidates); and every candidate absent
from all intermediate frames receives score 0.  Hypotheses: the profile
weights are nonnegative (as produced by `build_user_tag_profile` from
nonnegative ratings) and the candidate course ids are distinct (course
ids are primary keys). -/
theorem C8_content_scores (course_tags : List (String × String))
    (cands : List String) (profile : List (String × ℚ))
    (desired : Option (List String))
    (hprof : ∀ p ∈ profile, 0 ≤ p.2) (hnd : cands.Nodup) :
    (∀ p ∈ calculate_content_scores course_tags cands profile desired,
      0 ≤ p.2 ∧ p.2 ≤ 5) ∧
    (seriesMax (contentRawScores course_tags cands profile desired) ≤ 5 →
      calculate_content_scores course_tags cands profile desired =
        cands.map fun c =>
          (c, (sLookup (contentRawScores course_tags cands profile desired) c).getD 0)) ∧
    (5 < seriesMax (contentRawScores course_tags cands profile desired) →
      seriesMax (calculate_content_scores course_tags cands profile desired) = 5) ∧
    (∀ c ∈ cands,
      c ∉ (contentRawScores course_tags cands profile desired).map Prod.fst →
      sLookup (calculate_content_scores course_tags cands profile desired) c =
        some 0) := by
  refine ⟨?_, ?_, ?_, ?_⟩
  · intro p hp
    rw [calculate_content_scores] at hp
    split_ifs at hp with h1 h2
    · rw [(mem_contentBase hp).2]
      norm_num
    · rw [(mem_contentBase hp).2]
      norm_num
    · obtain ⟨c, hc, rfl⟩ := List.mem_map.mp hp
      simp only
      cases hv : sLookup (contentRescaled course_tags cands profile desired) c with
      | none => norm_num
      | some v =>
        simp only [Option.getD_some]
        exact mem_contentRescaled_bounds hprof (c, v) (sLookup_mem hv)
  · intro h
    rw [calculate_content_scores]
    split_ifs with h1 h2
    · rw [contentRawScores, if_pos h1]
      conv_lhs => rw [contentBase]
      apply List.map_congr_left
      intro c hc
      rw [sLookup_contentBase hc]
      rfl
    · rw [contentRawScores, if_neg h1, if_pos h2]
      conv_lhs => rw [contentBase]
      apply List.map_congr_left
      intro c hc
      rw [sLookup_contentBase hc]
      rfl
    · rw [contentRescaled_noop h]
  · intro h5
    rw [calculate_content_scores]
    split_ifs with h1 h2
    · rw [contentRawScores, if_pos h1, seriesMax_contentBase] at h5
      norm_num at h5
    · rw [contentRawScores, if_neg h1, if_pos h2, seriesMax_contentBase] at h5
      norm_num at h5
    · have hkey : seriesMax (cands.map fun c =>
          ((c : String), (sLookup (contentRescaled course_tags cands profile desired)
            c).getD 0)) =
          maxOf (cands.map fun c =>
            (sLookup (contentRescaled course_tags cands profile desired) c).getD 0) := by
        rw [seriesMax, List.map_map]
        rfl
      rw [hkey]
      apply le_antisymm
      · apply maxOf_le (by norm_num)
        intro x hx
        obtain ⟨c, _, rfl⟩ := List.mem_map.mp hx
        cases hv : sLookup (contentRescaled course_tags cands profile desired) c with
        | none => norm_num
        | some v =>
          simp only [Option.getD_some]
          exact (mem_contentRescaled_bounds hprof (c, v) (sLookup_mem hv)).2
      · obtain ⟨p, hp, hp5⟩ := contentRescaled_attains_five hprof h5
        have hpc : p.1 ∈ cands := by
          have hpk : p.1 ∈ (contentRescaled course_tags cands profile desired).map
              Prod.fst := List.mem_map.mpr ⟨p, hp, rfl⟩
          rw [contentRescaled_keys_eq] at hpk
          obtain ⟨q, hq, hq1⟩ := List.mem_map.mp hpk
          rw [← hq1]
          exact contentRaw_key_mem hq
        have hlook : sLookup (contentRescaled course_tags cands profile desired) p.1 =
            some p.2 := by
          apply sLookup_of_mem_nodup
          · rw [contentRescaled_keys_eq]
            exact contentRaw_keys_nodup hnd
          · exact hp
        apply le_maxOf
        apply List.mem_map.mpr
        refine ⟨p.1, hpc, ?_⟩
        rw [hlook, Option.getD_some, hp5]
  · intro c hc hcraw
    rw [calculate_content_scores]
    split_ifs with h1 h2
    · exact sLookup_contentBase hc
    · exact sLookup_contentBase hc
    · have hbase := sLookup_map_self (fun c =>
        (sLookup (contentRescaled course_tags cands profile desired) c).getD 0) hc
      rw [hbase]
      have hnone : sLookup (contentRescaled course_tags cands profile desired) c =
          none := by
        apply sLookup_eq_none.mpr
        rw [contentRescaled_keys_eq]
        exact hcraw
      simp only [hnone]
      rfl

section RecommendationLemmas

theorem candidatesAfterFilters_none (courses : List Course)
    (taken : List String) (ct : List (String × String)) :
    candidatesAfterFilters courses taken ct none =
      courses.filter fun c => c.course_id ∉ taken := rfl

theorem candidatesAfterFilters_some (courses : List Course)
    (taken : List String) (ct : List (String × String)) (ds : List String) :
    candidatesAfterFilters courses taken ct (some ds) =
      if ds = [] then courses.filter fun c => c.course_id ∉ taken else
      if ct = [] then courses.filter fun c => c.course_id ∉ taken else
      (courses.filter fun c => c.course_id ∉ taken).filter fun c =>
        c.course_id ∈ (ct.filter fun p => p.2 ∈ ds).map Prod.fst := rfl

theorem mem_candidatesAfterFilters {courses : List Course} {taken : List String}
    {ct : List (String × String)} {des : Option (List String)} {c : Course}
    (hc : c ∈ candidatesAfterFilters courses taken ct des) :
    c.course_id ∉ taken := by
  cases des with
  | none =>
    rw [candidatesAfterFilters_none] at hc
    have h := List.of_mem_filter hc
    simpa using h
  | some ds =>
    rw [candidatesAfterFilters_some] at hc
    split_ifs at hc with h1 h2
    · have h := List.of_mem_filter hc
      simpa using h
    · have h := List.of_mem_filter hc
      simpa using h
    · have hc2 := List.mem_of_mem_filter hc
      have h := List.of_mem_filter hc2
      simpa using h

theorem recRow_eq (preds : List (String × ℝ)) (content : List (String × ℚ))
    (cw ctw : ℝ) (c : Course) :
    recRow preds content cw ctw c =
      if 0 < (sLookup preds c.course_id).getD 0 then
        { course_id := c.course_id, avg_rating := c.avg_rating,
          collab_score := (sLookup preds c.course_id).getD 0,
          content_score := ((sLookup content c.course_id).getD 0 : ℚ),
          final_score := cw * (sLookup preds c.course_id).getD 0 +
            ctw * ((sLookup content c.course_id).getD 0 : ℚ),
          confidence := "high" }
      else
        { course_id := c.course_id, avg_rating := c.avg_rating,
          collab_score := (sLookup preds c.course_id).getD 0,
          content_score := ((sLookup content c.course_id).getD 0 : ℚ),
          final_score := 0.6 * ((sLookup content c.course_id).getD 0 : ℚ) +
            0.4 * (c.avg_rating : ℝ),
          confidence := "medium" } := rfl

theorem recRow_course_id (preds : List (String × ℝ)) (content : List (String × ℚ))
    (cw ctw : ℝ) (c : Course) :
    (recRow preds content cw ctw c).course_id = c.course_id := by
  rw [recRow_eq]
  split_ifs <;> rfl

theorem recRow_combination (preds : List (String × ℝ)) (content : List (String × ℚ))
    (cw ctw : ℝ) (c : Course) :
    (0 < (recRow preds content cw ctw c).collab_score →
      (recRow preds content cw ctw c).final_score =
        cw * (recRow preds content cw ctw c).collab_score +
          ctw * (recRow preds content cw ctw c).content_score ∧
      (recRow preds content cw ctw c).confidence = "high") ∧
    (¬ 0 < (recRow preds content cw ctw c).collab_score →
      (recRow preds content cw ctw c).final_score =
        0.6 * (recRow preds content cw ctw c).content_score +
          0.4 * ((recRow preds content cw ctw c).avg_rating : ℝ) ∧
      (recRow preds content cw ctw c).confidence = "medium") := by
  by_cases h : 0 < (sLookup preds c.course_id).getD 0
  · rw [recRow_eq, if_pos h]
    exact ⟨fun _ => ⟨rfl, rfl⟩, fun h' => absurd h h'⟩
  · rw [recRow_eq, if_neg h]
    exact ⟨fun h' => absurd h' h, fun _ => ⟨rfl, rfl⟩⟩

theorem recRows_eq (courses : List Course) (ct : List (String × String))
    (ar : List RatingRow) (tc : List String) (ur : List RatingRow)
    (uid : String) (des : Option (List String)) (cw ctw : ℝ) :
    recRows courses ct ar tc ur uid des cw ctw =
      (candidatesAfterFilters courses tc ct des).map
        (recRow
          (predict_ratings_collaborative ar uid
            ((candidatesAfterFilters courses tc ct des).map Course.course_id))
          (calculate_content_scores ct
            ((candidatesAfterFilters courses tc ct des).map Course.course_id)
            (build_user_tag_profile ur ct) des)
          cw ctw) := rfl

end RecommendationLemmas

/-- Claim C2: in the final score combination, every returned row with a
collaborative score (`has_collab`, i.e. `collab_score > 0` after filling
absent predictions with 0) has
`final = collab_weight·collab + content_weight·content` and confidence
"high"; every other returned row has `final = 0.6·content + 0.4·avg_rating`
and confidence "medium".  The weights default to 0.6/0.4 in
`get_recommendations`. -/
theorem C2_score_combination (courses : List Course)
    (course_tags : List (String × String)) (all_ratings : List RatingRow)
    (taken_courses : List String) (user_ratings : List RatingRow)
    (user_id : String) (desired_tags : Option (List String)) (top_n : ℕ)
    (collab_weight content_weight : ℝ) (row : RecRow)
    (hrow : row ∈ get_recommendations courses course_tags all_ratings
      taken_courses user_ratings user_id desired_tags top_n
      collab_weight content_weight) :
    (0 < row.collab_score →
      row.final_score = collab_weight * row.collab_score +
        content_weight * row.content_score ∧
      row.confidence = "high") ∧
    (¬ 0 < row.collab_score →
      row.final_score = 0.6 * row.content_score + 0.4 * (row.avg_rating : ℝ) ∧
      row.confidence = "medium") := by
  rw [get_recommendations] at hrow
  split_ifs at hrow with h
  · simp at hrow
  · have h1 := List.take_subset _ _ hrow
    have h2 := (mem_sortDesc RecRow.final_score).mp h1
    rw [recRows_eq] at h2
    obtain ⟨c, _, rfl⟩ := List.mem_map.mp h2
    exact recRow_combination _ _ _ _ c

/-- Claim C3 (amended: the claimed stable-sort tie order does not hold of
`sort_values(ascending=False)`, which reverses an ascending argsort, so
rows with equal final scores come out in reversed — in general
unspecified — order, not input order; the remaining guarantees stand):
the returned recommendation list is sorted non-increasing by final score,
has length at most the requested `top_n`, and is the `top_n`-prefix of
the reversed ascending sort of the scored rows. -/
theorem C3_ranking (courses : List Course)
    (course_tags : List (String × String)) (all_ratings : List RatingRow)
    (taken_courses : List String) (user_ratings : List RatingRow)
    (user_id : String) (desired_tags : Option (List String)) (top_n : ℕ)
    (collab_weight content_weight : ℝ) :
    (get_recommendations courses course_tags all_ratings taken_courses
      user_ratings user_id desired_tags top_n collab_weight
      content_weight).Pairwise (fun a b => b.final_score ≤ a.final_score) ∧
    (get_recommendations courses course_tags all_ratings taken_courses
      user_ratings user_id desired_tags top_n collab_weight
      content_weight).length ≤ top_n ∧
    (candidatesAfterFilters courses taken_courses course_tags desired_tags ≠ [] →
      get_recommendations courses course_tags all_ratings taken_courses
        user_ratings user_id desired_tags top_n collab_weight content_weight =
      (sortDesc RecRow.final_score (recRows courses course_tags all_ratings
        taken_courses user_ratings user_id desired_tags collab_weight
        content_weight)).take top_n) := by
  refine ⟨?_, ?_, ?_⟩
  · rw [get_recommendations]
    split_ifs with h
    · simp
    · exact (pairwise_sortDesc RecRow.final_score _).sublist (List.take_sublist _ _)
  · rw [get_recommendations]
    split_ifs with h
    · simp
    · exact List.length_take_le _ _
  · intro h
    rw [get_recommendations, if_neg h]

/-- Claim C4: no item in the user's history appears in the returned
recommendations, and an empty candidate set after history exclusion and
desired-tag filtering yields an empty result rather than an error. -/
theorem C4_history_exclusion (courses : List Course)
    (course_tags : List (String × String)) (all_ratings : List RatingRow)
    (taken_courses : List String) (user_ratings : List RatingRow)
    (user_id : String) (desired_tags : Option (List String)) (top_n : ℕ)
    (collab_weight content_weight : ℝ) :
    (∀ row ∈ get_recommendations courses course_tags all_ratings taken_courses
        user_ratings user_id desired_tags top_n collab_weight content_weight,
      row.course_id ∉ taken_courses) ∧
    (candidatesAfterFilters courses taken_courses course_tags desired_tags = [] →
      get_recommendations courses course_tags all_ratings taken_courses
        user_ratings user_id desired_tags top_n collab_weight
        content_weight = []) := by
  constructor
  · intro row hrow
    rw [get_recommendations] at hrow
    split_ifs at hrow with h
    · simp at hrow
    · have h1 := List.take_subset _ _ hrow
      have h2 := (mem_sortDesc RecRow.final_score).mp h1
      rw [recRows_eq] at h2
      obtain ⟨c, hc, rfl⟩ := List.mem_map.mp h2
      rw [recRow_course_id]
      exact mem_candidatesAfterFilters hc
  · intro h
    rw [get_recommendations, if_pos h]

theorem getRec_scenario :
    get_recommendations [⟨"c1", 4⟩, ⟨"c2", 3⟩] [] [] ["c1"] [] "u" none 10 0.6 0.4 =
      [⟨"c2", 3, 0, 0, 1.2, "medium"⟩] := by
  have hcand : candidatesAfterFilters [⟨"c1", 4⟩, ⟨"c2", 3⟩] ["c1"] [] none =
      [⟨"c2", 3⟩] := by decide
  have hfsu : find_similar_users [] "u" 15 = [] := by
    rw [find_similar_users_eq, if_pos (Or.inl rfl)]
  have hpred : predict_ratings_collaborative [] "u" ["c2"] = [] := by
    rw [predict_eq, hfsu, if_pos rfl]
  have hprofile : build_user_tag_profile [] [] = [] := by
    rw [build_user_tag_profile, if_pos (Or.inl rfl)]
  have hcontent : calculate_content_scores [] ["c2"] [] none = [("c2", 0)] := by
    rw [calculate_content_scores, if_pos rfl]
    rfl
  rw [get_recommendations, if_neg (by rw [hcand]; simp), recRows_eq, hcand]
  simp only [List.map_cons, List.map_nil]
  rw [hprofile, hpred, hcontent, recRow_eq]
  norm_num [sLookup, sortDesc, sortAsc, insertAsc, List.take]

theorem C2_score_combination_witness :
    ((⟨"c2", 3, 0, 0, 1.2, "medium"⟩ : RecRow) ∈
      get_recommendations [⟨"c1", 4⟩, ⟨"c2", 3⟩] [] [] ["c1"] [] "u" none 10 0.6 0.4) ∧
    (1.2 : ℝ) = 0.6 * (0 : ℝ) + 0.4 * ((3 : ℚ) : ℝ) ∧
    ("medium" : String) = "medium" := by
  have hmem : (⟨"c2", 3, 0, 0, 1.2, "medium"⟩ : RecRow) ∈
      get_recommendations [⟨"c1", 4⟩, ⟨"c2", 3⟩] [] [] ["c1"] [] "u" none 10 0.6 0.4 := by
    rw [getRec_scenario]
    exact List.mem_singleton_self _
  have h := (C2_score_combination [⟨"c1", 4⟩, ⟨"c2", 3⟩] [] [] ["c1"] [] "u" none 10
    0.6 0.4 ⟨"c2", 3, 0, 0, 1.2, "medium"⟩ hmem).2 (by norm_num)
  exact ⟨hmem, h.1, h.2⟩

theorem recRows_tie_scenario :
    recRows [⟨"c1", 3⟩, ⟨"c2", 3⟩] [] [] [] [] "u" none 0.6 0.4 =
      [⟨"c1", 3, 0, 0, 1.2, "medium"⟩, ⟨"c2", 3, 0, 0, 1.2, "medium"⟩] := by
  have hcand : candidatesAfterFilters [⟨"c1", 3⟩, ⟨"c2", 3⟩] [] [] none =
      [⟨"c1", 3⟩, ⟨"c2", 3⟩] := by decide
  have hfsu : find_similar_users [] "u" 15 = [] := by
    rw [find_similar_users_eq, if_pos (Or.inl rfl)]
  have hpred : predict_ratings_collaborative [] "u" ["c1", "c2"] = [] := by
    rw [predict_eq, hfsu, if_pos rfl]
  have hprofile : build_user_tag_profile [] [] = [] := by
    rw [build_user_tag_profile, if_pos (Or.inl rfl)]
  have hcontent : calculate_content_scores [] ["c1", "c2"] [] none =
      [("c1", 0), ("c2", 0)] := by
    rw [calculate_content_scores, if_pos rfl]
    rfl
  rw [recRows_eq, hcand]
  simp only [List.map_cons, List.map_nil]
  rw [hprofile, hpred, hcontent, recRow_eq, recRow_eq]
  norm_num [sLookup]

theorem getRec_tie_scenario :
    get_recommendations [⟨"c1", 3⟩, ⟨"c2", 3⟩] [] [] [] [] "u" none 10 0.6 0.4 =
      [⟨"c2", 3, 0, 0, 1.2, "medium"⟩, ⟨"c1", 3, 0, 0, 1.2, "medium"⟩] := by
  have hcand : candidatesAfterFilters [⟨"c1", 3⟩, ⟨"c2", 3⟩] [] [] none =
      [⟨"c1", 3⟩, ⟨"c2", 3⟩] := by decide
  rw [get_recommendations, if_neg (by rw [hcand]; simp), recRows_tie_scenario]
  norm_num [sortDesc, sortAsc, insertAsc, List.take]

/-- Claim C3 counterexample: two candidates whose final scores tie (both
1.2) enter the sort in input order c1, c2 but are returned as c2, c1 —
`sort_values(ascending=False)` reverses an ascending argsort, so equal
final scores do NOT appear in their input order. -/
theorem C3_counterexample :
    recRows [⟨"c1", 3⟩, ⟨"c2", 3⟩] [] [] [] [] "u" none 0.6 0.4 =
      [⟨"c1", 3, 0, 0, 1.2, "medium"⟩, ⟨"c2", 3, 0, 0, 1.2, "medium"⟩] ∧
    get_recommendations [⟨"c1", 3⟩, ⟨"c2", 3⟩] [] [] [] [] "u" none 10 0.6 0.4 =
      [⟨"c2", 3, 0, 0, 1.2, "medium"⟩, ⟨"c1", 3, 0, 0, 1.2, "medium"⟩] ∧
    (⟨"c1", 3, 0, 0, 1.2, "medium"⟩ : RecRow).final_score =
      (⟨"c2", 3, 0, 0, 1.2, "medium"⟩ : RecRow).final_score ∧
    get_recommendations [⟨"c1", 3⟩, ⟨"c2", 3⟩] [] [] [] [] "u" none 10 0.6 0.4 ≠
      recRows [⟨"c1", 3⟩, ⟨"c2", 3⟩] [] [] [] [] "u" none 0.6 0.4 := by
  refine ⟨recRows_tie_scenario, getRec_tie_scenario, rfl, ?_⟩
  rw [recRows_tie_scenario, getRec_tie_scenario]
  intro h
  have h0 := congrArg (fun l => (List.headD l ⟨"x", 0, 0, 0, 0, "x"⟩).course_id) h
  simp at h0

theorem C3_ranking_witness :
    get_recommendations [⟨"c1", 4⟩, ⟨"c2", 3⟩] [] [] ["c1"] [] "u" none 10 0.6 0.4 =
      (sortDesc RecRow.final_score
        (recRows [⟨"c1", 4⟩, ⟨"c2", 3⟩] [] [] ["c1"] [] "u" none 0.6 0.4)).take 10 :=
  (C3_ranking [⟨"c1", 4⟩, ⟨"c2", 3⟩] [] [] ["c1"] [] "u" none 10 0.6 0.4).2.2
    (by decide)

theorem C4_history_exclusion_witness :
    (("c2" : String) ∉ (["c1"] : List String)) ∧
    get_recommendations [⟨"c1", 4⟩] [] [] ["c1"] [] "u" none 10 0.6 0.4 = [] := by
  constructor
  · exact (C4_history_exclusion [⟨"c1", 4⟩, ⟨"c2", 3⟩] [] [] ["c1"] [] "u" none 10
      0.6 0.4).1 ⟨"c2", 3, 0, 0, 1.2, "medium"⟩
      (by rw [getRec_scenario]; exact List.mem_singleton_self _)
  · exact (C4_history_exclusion [⟨"c1", 4⟩] [] [] ["c1"] [] "u" none 10 0.6 0.4).2
      (by decide)

theorem C8_content_scores_witness :
    ((("a":String), (3:ℚ)) ∈
        calculate_content_scores [("a", "t1")] ["a", "b"] [("t1", 3)] none ∧
      (0:ℚ) ≤ ((("a":String), (3:ℚ))).2 ∧ ((("a":String), (3:ℚ))).2 ≤ 5) ∧
    calculate_content_scores [("a", "t1")] ["a", "b"] [("t1", 3)] none =
      (["a", "b"] : List String).map fun c =>
        (c, (sLookup (contentRawScores [("a", "t1")] ["a", "b"] [("t1", 3)] none)
          c).getD 0) := by
  have hprof : ∀ p ∈ [(("t1":String), (3:ℚ))], 0 ≤ p.2 := by decide
  have hnd : (["a", "b"] : List String).Nodup := by decide
  have hcalc : calculate_content_scores [("a", "t1")] ["a", "b"] [("t1", 3)] none =
      [("a", 3), ("b", 0)] := by
    norm_num +decide [calculate_content_scores, candidateTags, contentRescaled,
      contentRawScores, contentS2, contentS1, contentBase, sAdd, groupSum,
      sLookup, seriesSum, seriesMax, maxOf, List.filter, List.filterMap,
      List.dedup]
  have hmax : seriesMax (contentRawScores [("a", "t1")] ["a", "b"] [("t1", 3)]
      none) ≤ 5 := by
    norm_num +decide [contentRawScores, candidateTags, contentS2, contentS1,
      contentBase, sAdd, groupSum, sLookup, seriesSum, seriesMax, maxOf,
      List.filter, List.filterMap, List.dedup]
  refine ⟨⟨?_, ?_⟩, ?_⟩
  · rw [hcalc]
    exact List.mem_cons_self _ _
  · exact (C8_content_scores [("a", "t1")] ["a", "b"] [("t1", 3)] none hprof hnd).1
      ("a", 3) (by rw [hcalc]; exact List.mem_cons_self _ _)
  · exact (C8_content_scores [("a", "t1")] ["a", "b"] [("t1", 3)] none hprof hnd).2.1
      hmax

/-- Claim C5: `similar_users(user, top_n)` is empty when the user has no
row in the user-item matrix; otherwise the result never contains the user
itself, has at most `top_n` entries, and every returned similarity value
lies in (0.05, 1]. -/
theorem C5_similar_users (t : List RatingRow) (user_id : String) (top_n : ℕ) :
    (user_id ∉ userIds t → find_similar_users t user_id top_n = []) ∧
    (find_similar_users t user_id top_n).length ≤ top_n ∧
    (∀ p ∈ find_similar_users t user_id top_n,
      p.1 ≠ user_id ∧ (0.05 : ℝ) < p.2 ∧ p.2 ≤ 1) :=
  ⟨fun h => find_similar_users_eq_nil top_n h,
   length_find_similar_users t user_id top_n,
   fun _ hp => mem_find_similar_users hp⟩

theorem C5_similar_users_witness :
    ("ux" ∉ userIds sampleRatings2 ∧ find_similar_users sampleRatings2 "ux" 15 = []) ∧
    (("u2" : String) ≠ "u1" ∧ (0.05 : ℝ) < 1 ∧ (1 : ℝ) ≤ 1) := by
  constructor
  · have h : "ux" ∉ userIds sampleRatings2 := by decide
    exact ⟨h, (C5_similar_users sampleRatings2 "ux" 15).1 h⟩
  · exact (C5_similar_users sampleRatings2 "u1" 15).2.2 ("u2", 1)
      (by rw [fsu_sample2]; exact List.mem_singleton_self _)

/-- Claim C6 counterexample: the claim requires the prediction to lie
strictly within the minimum and maximum of the contributing ratings, but
with a single contributing similar-user rating (derived rating 4) the
prediction equals 4 = min = max, so the strict bound `min < p` fails. -/
theorem C6_counterexample :
    predict_ratings_collaborative sampleRatings3 "u1" ["c2"] = [("c2", 4)] ∧
    ((contribRows sampleRatings3 "u1" ["c2"]).filter
      (fun r => r.course_id = "c2")).map rating = [4] ∧
    ¬ ((4 : ℝ) < 4) := by
  refine ⟨predict_sample3, ?_, lt_irrefl 4⟩
  rw [contrib_sample3]
  norm_num +decide [rating, List.filter]

/-- Claim C6 (amended: the prediction is a weighted average lying within
the closed interval bounded by the minimum and maximum of the
contributing similar users' ratings, inclusively — equality occurs when
all contributing ratings coincide): for every item produced by
`predict_ratings_collaborative`, the prediction equals
`Σ(rating·similarity) / Σ(similarity)` over the contributing rows, it is
at least every lower bound and at most every upper bound of the
contributing ratings, and an item with no contributing similar-user
rating receives no prediction (absence, not zero). -/
theorem C6_weighted_mean (t : List RatingRow) (user_id : String)
    (cands : List String) :
    (∀ p ∈ predict_ratings_collaborative t user_id cands,
      p.2 = (((contribRows t user_id cands).filter fun r => r.course_id = p.1).map
              fun r => (rating r : ℝ) *
                simWeight (find_similar_users t user_id) r.user_id).sum /
            (((contribRows t user_id cands).filter fun r => r.course_id = p.1).map
              fun r => simWeight (find_similar_users t user_id) r.user_id).sum ∧
      (∀ lb : ℝ, (∀ r ∈ (contribRows t user_id cands).filter
          (fun r => r.course_id = p.1), lb ≤ (rating r : ℝ)) → lb ≤ p.2) ∧
      (∀ ub : ℝ, (∀ r ∈ (contribRows t user_id cands).filter
          (fun r => r.course_id = p.1), (rating r : ℝ) ≤ ub) → p.2 ≤ ub)) ∧
    (∀ c : String, c ∉ (contribRows t user_id cands).map RatingRow.course_id →
      sLookup (predict_ratings_collaborative t user_id cands) c = none) := by
  constructor
  · intro p hp
    obtain ⟨hne, hw, hform⟩ := mem_predict hp
    refine ⟨hform, ?_, ?_⟩
    · intro lb hlb
      rw [hform]
      exact le_weighted_mean _ _ _ hne hw lb hlb
    · intro ub hub
      rw [hform]
      exact weighted_mean_le _ _ _ hne hw ub hub
  · intro c hc
    exact predict_lookup_eq_none hc

theorem C6_weighted_mean_witness :
    (("c2", (4 : ℝ)) ∈ predict_ratings_collaborative sampleRatings3 "u1" ["c2"]) ∧
    (3 : ℝ) ≤ 4 ∧ (4 : ℝ) ≤ 5 := by
  have hmem : (("c2", (4 : ℝ))) ∈ predict_ratings_collaborative sampleRatings3 "u1" ["c2"] := by
    rw [predict_sample3]
    exact List.mem_singleton_self _
  have h := (C6_weighted_mean sampleRatings3 "u1" ["c2"]).1 ("c2", 4) hmem
  have hrows : ∀ r ∈ (contribRows sampleRatings3 "u1" ["c2"]).filter
      (fun r => r.course_id = ("c2", (4:ℝ)).1), rating r = 4 := by
    rw [contrib_sample3]
    norm_num +decide [rating, List.filter]
  refine ⟨hmem, ?_, ?_⟩
  · exact h.2.1 3 fun r hr => by rw [hrows r hr]; norm_num
  · exact h.2.2 5 fun r hr => by rw [hrows r hr]; norm_num

/-- Claim C7: degenerate similarity never causes a division-by-zero fault:
cosine similarity involving an all-zero vector is 0 by the explicit
guard, and in prediction the denominator `Σ similarity` is strictly
positive for every group that reaches the division (every retained
similarity exceeds the 0.05 noise floor). -/
theorem C7_degenerate_no_fault (x y : List ℚ) (t : List RatingRow)
    (user_id : String) (cands : List String) :
    (normSq x = 0 ∨ normSq y = 0 → cosSim x y = 0) ∧
    (∀ p ∈ predict_ratings_collaborative t user_id cands,
      0 < (((contribRows t user_id cands).filter fun r => r.course_id = p.1).map
            fun r => simWeight (find_similar_users t user_id) r.user_id).sum) := by
  constructor
  · intro h
    rw [cosSim, if_pos h]
  · intro p hp
    obtain ⟨hne, hw, _⟩ := mem_predict hp
    apply List.sum_pos
    · intro a ha
      obtain ⟨r, hr, rfl⟩ := List.mem_map.mp ha
      exact hw r hr
    · simpa using hne

theorem C7_degenerate_no_fault_witness :
    cosSim [0] [3] = 0 ∧ (0 : ℝ) < 3 / 5 := by
  constructor
  · exact (C7_degenerate_no_fault [0] [3] sampleRatings3 "u1" ["c2"]).1
      (Or.inl (by norm_num [normSq, dotProd]))
  · have h := (C7_degenerate_no_fault [0] [3] sampleRatings3 "u1" ["c2"]).2
      ("c2", 4) (by rw [predict_sample3]; exact List.mem_singleton_self _)
    rw [weights_sample3] at h
    have hs : ([(3:ℝ)/5]).sum = 3/5 := by simp
    rw [hs] at h
    exact h

/-- Claim C10 (implicit): assuming every rating sub-criterion lies in
[1, 5] (as the integer sub-scores do), every collaborative prediction is
at least 1.0, and therefore the `collab_score > 0` test applied after
filling absent predictions with 0 holds for exactly the items that
received a prediction: a genuine prediction can never be 0 and be
mistaken for absence. -/
theorem C10_predictions_ge_one (t : List RatingRow) (user_id : String)
    (cands : List String)
    (hsub : ∀ r ∈ t, (1 ≤ r.lecturer ∧ r.lecturer ≤ 5) ∧
      (1 ≤ r.material ∧ r.material ≤ 5) ∧ (1 ≤ r.grading ∧ r.grading ≤ 5) ∧
      (1 ≤ r.joy ∧ r.joy ≤ 5)) :
    (∀ p ∈ predict_ratings_collaborative t user_id cands, 1 ≤ p.2) ∧
    (∀ c : String,
      0 < (sLookup (predict_ratings_collaborative t user_id cands) c).getD 0 ↔
      c ∈ (predict_ratings_collaborative t user_id cands).map Prod.fst) := by
  have hone : ∀ p ∈ predict_ratings_collaborative t user_id cands, 1 ≤ p.2 := by
    intro p hp
    obtain ⟨hne, hw, hform⟩ := mem_predict hp
    rw [hform]
    apply le_weighted_mean _ _ _ hne hw
    intro r hr
    have hrt : r ∈ t := List.mem_of_mem_filter (List.mem_of_mem_filter hr)
    have h1 := (rating_bounds (hsub r hrt)).1
    exact_mod_cast h1
  refine ⟨hone, fun c => ⟨?_, ?_⟩⟩
  · intro hpos
    cases hv : sLookup (predict_ratings_collaborative t user_id cands) c with
    | none => rw [hv] at hpos; simp at hpos
    | some v => exact List.mem_map.mpr ⟨(c, v), sLookup_mem hv, rfl⟩
  · intro hmem
    obtain ⟨v, hv⟩ := sLookup_isSome_of_mem hmem
    have h1 := hone (c, v) (sLookup_mem hv)
    rw [hv]
    simp only [Option.getD_some]
    linarith

theorem C10_predictions_ge_one_witness :
    (1 : ℝ) ≤ 4 ∧
    (0 < (sLookup (predict_ratings_collaborative sampleRatings3 "u1" ["c2"]) "c2").getD 0 ↔
      "c2" ∈ (predict_ratings_collaborative sampleRatings3 "u1" ["c2"]).map Prod.fst) := by
  have hsub : ∀ r ∈ sampleRatings3, (1 ≤ r.lecturer ∧ r.lecturer ≤ 5) ∧
      (1 ≤ r.material ∧ r.material ≤ 5) ∧ (1 ≤ r.grading ∧ r.grading ≤ 5) ∧
      (1 ≤ r.joy ∧ r.joy ≤ 5) := by decide
  refine ⟨?_, (C10_predictions_ge_one sampleRatings3 "u1" ["c2"] hsub).2 "c2"⟩
  exact (C10_predictions_ge_one sampleRatings3 "u1" ["c2"] hsub).1 ("c2", 4)
    (by rw [predict_sample3]; exact List.mem_singleton_self _)

/-- Claim C1: for the TTL cache, a `get(key, ttl)` performed at time `now`
after a `set(key, value)` performed at time `t_set` returns the value
exactly when `now − t_set < ttl`, leaving the cache unchanged; when
`ttl ≤ now − t_set` the read returns absent and deletes the entry as a
side effect; a key never set reads as absent and leaves the cache
unchanged; and `set` always overwrites any existing entry, resetting its
insertion timestamp. -/
theorem C1_ttl_cache {V : Type} (c : DataCache V) (key : String) (value : V)
    (t_set now ttl : ℚ) :
    (now - t_set < ttl →
      ((c.set key value t_set).get key ttl now).1 = some value ∧
      ((c.set key value t_set).get key ttl now).2 = c.set key value t_set) ∧
    (ttl ≤ now - t_set →
      ((c.set key value t_set).get key ttl now).1 = none ∧
      ((c.set key value t_set).get key ttl now).2.store key = none) ∧
    (c.store key = none →
      (c.get key ttl now).1 = none ∧ (c.get key ttl now).2 = c) ∧
    (c.set key value t_set).store key = some (value, t_set) := by
  have hstore : (c.set key value t_set).store key = some (value, t_set) := by
    simp [DataCache.set]
  refine ⟨?_, ?_, ?_, hstore⟩
  · intro h
    simp [DataCache.get, hstore, if_pos h]
  · intro h
    constructor
    · simp [DataCache.get, hstore, not_lt.mpr h]
    · simp [DataCache.get, hstore, not_lt.mpr h]
  · intro h
    simp [DataCache.get, h]

theorem C1_ttl_cache_witness :
    ((DataCache.empty.set "k" (3:ℕ) 0).get "k" 300 10).1 = some 3 ∧
    ((DataCache.empty.set "k" (3:ℕ) 0).get "k" 300 400).1 = none ∧
    ((DataCache.empty.set "k" (3:ℕ) 0).get "k" 300 400).2.store "k" = none ∧
    ((DataCache.empty : DataCache ℕ).get "k" 300 10).1 = none := by
  refine ⟨((C1_ttl_cache DataCache.empty "k" 3 0 10 300).1 (by norm_num)).1, ?_, ?_, ?_⟩
  · exact ((C1_ttl_cache DataCache.empty "k" 3 0 400 300).2.1 (by norm_num)).1
  · exact ((C1_ttl_cache DataCache.empty "k" 3 0 400 300).2.1 (by norm_num)).2
  · exact ((C1_ttl_cache DataCache.empty "k" 3 0 10 300).2.2.1 rfl).1

/-- Claim C9: `invalidate_user_cache(U)` removes exactly U's `ratings_U`,
`history_U`, `tag_profile_U`, `similar_users_U` entries plus the shared
`all_ratings` entry; every key outside these five — in particular any
other user's ratings, history, tag-profile or similar-users entry — is
left unchanged by the call. -/
theorem C9_invalidate_user {V : Type} (c : DataCache V) (U : String) :
    ((invalidate_user_cache c U).store ("ratings_" ++ U) = none ∧
     (invalidate_user_cache c U).store ("history_" ++ U) = none ∧
     (invalidate_user_cache c U).store ("tag_profile_" ++ U) = none ∧
     (invalidate_user_cache c U).store ("similar_users_" ++ U) = none ∧
     (invalidate_user_cache c U).store "all_ratings" = none) ∧
    (∀ k : String,
      k ∉ ["ratings_" ++ U, "history_" ++ U, "tag_profile_" ++ U,
           "similar_users_" ++ U, "all_ratings"] →
      (invalidate_user_cache c U).store k = c.store k) ∧
    (∀ U2 : String, U2 ≠ U →
      (invalidate_user_cache c U).store ("ratings_" ++ U2) =
        c.store ("ratings_" ++ U2) ∧
      (invalidate_user_cache c U).store ("history_" ++ U2) =
        c.store ("history_" ++ U2) ∧
      (invalidate_user_cache c U).store ("tag_profile_" ++ U2) =
        c.store ("tag_profile_" ++ U2) ∧
      (invalidate_user_cache c U).store ("similar_users_" ++ U2) =
        c.store ("similar_users_" ++ U2)) := by
  refine ⟨⟨?_, ?_, ?_, ?_, ?_⟩, ?_, ?_⟩
  · unfold invalidate_user_cache
    rw [invalidate_store_ne _ _ _
        (append_ne_lit U data_ratings data_all_ratings (by decide)),
      invalidate_store_ne _ _ _
        (append_ne_append_of_head_ne U U data_ratings data_similar_users (by decide)),
      invalidate_store_ne _ _ _
        (append_ne_append_of_head_ne U U data_ratings data_tag_profile (by decide)),
      invalidate_store_ne _ _ _
        (append_ne_append_of_head_ne U U data_ratings data_history (by decide)),
      invalidate_store_self]
  · unfold invalidate_user_cache
    rw [invalidate_store_ne _ _ _
        (append_ne_lit U data_history data_all_ratings (by decide)),
      invalidate_store_ne _ _ _
        (append_ne_append_of_head_ne U U data_history data_similar_users (by decide)),
      invalidate_store_ne _ _ _
        (append_ne_append_of_head_ne U U data_history data_tag_profile (by decide)),
      invalidate_store_self]
  · unfold invalidate_user_cache
    rw [invalidate_store_ne _ _ _
        (append_ne_lit U data_tag_profile data_all_ratings (by decide)),
      invalidate_store_ne _ _ _
        (append_ne_append_of_head_ne U U data_tag_profile data_similar_users (by decide)),
      invalidate_store_self]
  · unfold invalidate_user_cache
    rw [invalidate_store_ne _ _ _
        (append_ne_lit U data_similar_users data_all_ratings (by decide)),
      invalidate_store_self]
  · unfold invalidate_user_cache
    rw [invalidate_store_self]
  · intro k hk
    simp only [List.mem_cons, List.mem_singleton, not_or] at hk
    obtain ⟨h1, h2, h3, h4, h5⟩ := hk
    exact invalidate_user_store_ne c U k h1 h2 h3 h4 (by simpa using h5)
  · intro U2 hU2
    refine ⟨?_, ?_, ?_, ?_⟩
    · exact invalidate_user_store_ne c U _
        (fun h => hU2 (append_left_cancel_str h))
        (append_ne_append_of_head_ne U2 U data_ratings data_history (by decide))
        (append_ne_append_of_head_ne U2 U data_ratings data_tag_profile (by decide))
        (append_ne_append_of_head_ne U2 U data_ratings data_similar_users (by decide))
        (append_ne_lit U2 data_ratings data_all_ratings (by decide))
    · exact invalidate_user_store_ne c U _
        (append_ne_append_of_head_ne U2 U data_history data_ratings (by decide))
        (fun h => hU2 (append_left_cancel_str h))
        (append_ne_append_of_head_ne U2 U data_history data_tag_profile (by decide))
        (append_ne_append_of_head_ne U2 U data_history data_similar_users (by decide))
        (append_ne_lit U2 data_history data_all_ratings (by decide))
    · exact invalidate_user_store_ne c U _
        (append_ne_append_of_head_ne U2 U data_tag_profile data_ratings (by decide))
        (append_ne_append_of_head_ne U2 U data_tag_profile data_history (by decide))
        (fun h => hU2 (append_left_cancel_str h))
        (append_ne_append_of_head_ne U2 U data_tag_profile data_similar_users (by decide))
        (append_ne_lit U2 data_tag_profile data_all_ratings (by decide))
    · exact invalidate_user_store_ne c U _
        (append_ne_append_of_head_ne U2 U data_similar_users data_ratings (by decide))
        (append_ne_append_of_head_ne U2 U data_similar_users data_history (by decide))
        (append_ne_append_of_head_ne U2 U data_similar_users data_tag_profile (by decide))
        (fun h => hU2 (append_left_cancel_str h))
        (append_ne_lit U2 data_similar_users data_all_ratings (by decide))

theorem C9_invalidate_user_witness :
    (invalidate_user_cache (DataCache.empty.set ("ratings_" ++ "v") (1:ℕ) 0) "u").store
        ("ratings_" ++ "v") =
      (DataCache.empty.set ("ratings_" ++ "v") (1:ℕ) 0).store ("ratings_" ++ "v") ∧
    (invalidate_user_cache (DataCache.empty.set ("ratings_" ++ "v") (1:ℕ) 0) "u").store
        ("ratings_" ++ "u") = none :=
  ⟨((C9_invalidate_user (DataCache.empty.set ("ratings_" ++ "v") (1:ℕ) 0) "u").2.2 "v"
      (by decide)).1,
    (C9_invalidate_user (DataCache.empty.set ("ratings_" ++ "v") (1:ℕ) 0) "u").1.1⟩

end RecSys
